import Mathlib

/-!
Verification of the SideScope browser-agent core against its specification.

The definitions below are shallow embeddings of the TypeScript sources:
machine timestamps and durations are natural numbers of milliseconds,
JavaScript numbers that carry fractional values are rationals, fallible
operations return `Option`, and the asynchronous parts (the agent loop, the
retrying network client, the TTL cache with its eviction timers) are modelled
as explicit state passing over traces of environment events.
-/

namespace SideScope

/-- JSON values as produced by `JSON.parse` (object fields kept in source
order; duplicate keys are resolved at lookup time, last one winning, as in
JavaScript). -/
inductive Json where
  | null : Json
  | bool (b : Bool) : Json
  | num (q : ℚ) : Json
  | str (s : String) : Json
  | arr (elems : List Json) : Json
  | obj (fields : List (String × Json)) : Json

/-- `BrowserAction` from `src/shared/types.ts`: the tagged action vocabulary
of the agent. -/
inductive BrowserAction where
  | navigate (url : String) : BrowserAction
  | click (selector : String) (text : Option String) : BrowserAction
  | typeText (selector : String) (text : String) (clearFirst : Option Bool) : BrowserAction
  | scroll (direction : Option String) (selector : Option String) : BrowserAction
  | wait (selector : Option String) (timeout : Option Nat) : BrowserAction
  | extract (selector : String) (attrName : Option String) : BrowserAction
  | hover (selector : String) : BrowserAction
  | select (selector : String) (value : String) : BrowserAction
  | pressKey (key : String) : BrowserAction
  | done (summary : String) : BrowserAction
deriving DecidableEq

/-- `ActionResult` from `src/shared/types.ts`. -/
structure ActionResult where
  success : Bool
  error : Option String := none
  data : Option Json := none
  screenshot : Option String := none

/-- `AgentStep` from `src/shared/types.ts`. -/
structure AgentStep where
  id : String
  thought : String
  action : BrowserAction
  result : Option ActionResult := none
  timestamp : Nat

/-- `AgentState` from `src/shared/types.ts`. -/
structure AgentState where
  isRunning : Bool
  isPaused : Bool
  currentTask : String
  steps : List AgentStep
  stepCount : Nat
  maxSteps : Nat
  startTime : Nat
  error : Option String := none

/-- `AgentConfig` from `src/shared/types.ts`. -/
structure AgentConfig where
  maxSteps : Nat
  stepDelayMs : Nat
  timeoutMs : Nat
  retryCount : Nat
  autoApprove : Bool
  highlightElements : Bool
deriving DecidableEq

/-- `DEFAULT_AGENT_CONFIG` from `src/shared/types.ts`. -/
def DEFAULT_AGENT_CONFIG : AgentConfig :=
  { maxSteps := 20
    stepDelayMs := 500
    timeoutMs := 60000
    retryCount := 2
    autoApprove := true
    highlightElements := true }

/-- `createAgentState` from `src/backend/agentService.ts`. The TypeScript
takes a `Partial<AgentConfig>` and merges it over the default; the merged
record is passed here, and `Date.now()` is the explicit `now` argument. -/
def createAgentState (task : String) (mergedConfig : AgentConfig) (now : Nat) : AgentState :=
  { isRunning := true
    isPaused := false
    currentTask := task
    steps := []
    stepCount := 0
    maxSteps := mergedConfig.maxSteps
    startTime := now }

/-- `addStep` from `src/backend/agentService.ts`. -/
def addStep (state : AgentState) (step : AgentStep) : AgentState :=
  { state with
    steps := state.steps ++ [step]
    stepCount := state.stepCount + 1 }

/-- Result record of `shouldStopAgent`. -/
structure StopDecision where
  stop : Bool
  reason : Option String := none
deriving DecidableEq

/-- `shouldStopAgent` from `src/backend/agentService.ts`, with `Date.now()`
passed explicitly as `now`. Note the timeout comparison is strict
(`elapsed > config.timeoutMs`). -/
def shouldStopAgent (state : AgentState) (config : AgentConfig) (now : Nat) : StopDecision :=
  if state.maxSteps ≤ state.stepCount then
    { stop := true, reason := some ("Reached maximum steps (" ++ toString state.maxSteps ++ ")") }
  else if config.timeoutMs < now - state.startTime then
    { stop := true, reason := some ("Timeout (" ++ toString (config.timeoutMs / 1000) ++ "s)") }
  else if state.isPaused then
    { stop := true, reason := some "Paused by user" }
  else if !state.isRunning then
    { stop := true, reason := some "Stopped by user" }
  else
    { stop := false }

/-- `estimateTokens` from the content-extraction utilities:
`Math.ceil(text.length / 4)`. -/
def estimateTokens (textLength : Nat) : Nat :=
  (textLength + 3) / 4

/-- `ContentChunk` from `src/shared/types.ts` (the fields used by the
token-budget packer). -/
structure ContentChunk where
  type : String
  priority : Int
  text : String
  tokens : Nat
deriving DecidableEq

/-- The selection loop of `buildOptimizedContent`: walks the chunk list in
order, keeping a running token total, appending a chunk only while
`totalTokens + chunk.tokens <= maxTokens` and breaking at the first chunk
that would overflow. -/
def selectChunksGo (maxTokens : Nat) : List ContentChunk → Nat → List ContentChunk
  | [], _ => []
  | c :: rest, totalTokens =>
    if totalTokens + c.tokens ≤ maxTokens then
      c :: selectChunksGo maxTokens rest (totalTokens + c.tokens)
    else
      []

/-- The `selectedChunks` computed by `buildOptimizedContent`. -/
def selectChunks (chunks : List ContentChunk) (maxTokens : Nat) : List ContentChunk :=
  selectChunksGo maxTokens chunks 0

/-- Summed token estimate of a chunk list. -/
def sumTokens (chunks : List ContentChunk) : Nat :=
  (chunks.map ContentChunk.tokens).sum

/-- The rendering fold of `buildOptimizedContent`: spacing between type
changes, then per-type formatting. -/
def renderChunksGo : List ContentChunk → String → Option String → String
  | [], content, _ => content
  | c :: rest, content, lastType =>
    let spaced :=
      if lastType.isSome && lastType ≠ some c.type then content ++ "\n\n" else content
    let formatted :=
      if c.type == "heading" then spaced ++ "\n## " ++ c.text ++ "\n"
      else if c.type == "code" then spaced ++ "\n```\n" ++ c.text ++ "\n```\n"
      else if c.type == "quote" then spaced ++ "\n> " ++ c.text ++ "\n"
      else spaced ++ c.text ++ "\n"
    renderChunksGo rest formatted (some c.type)

/-- `buildOptimizedContent` from the content-extraction utilities
(`src/unnamed/part_000` and the content script in `src/unnamed/part_005`,
which contain the identical function). -/
def buildOptimizedContent (chunks : List ContentChunk) (maxTokens : Nat) : String :=
  (renderChunksGo (selectChunks chunks maxTokens) "" none).trim

lemma sumTokens_nil : sumTokens [] = 0 := rfl

lemma sumTokens_cons (c : ContentChunk) (l : List ContentChunk) :
    sumTokens (c :: l) = c.tokens + sumTokens l := by
  simp [sumTokens]

lemma selectChunksGo_spec (maxTokens : Nat) :
    ∀ (l : List ContentChunk) (tot : Nat), tot ≤ maxTokens →
      (∃ t, selectChunksGo maxTokens l tot ++ t = l)
      ∧ tot + sumTokens (selectChunksGo maxTokens l tot) ≤ maxTokens
      ∧ ∀ c rest,
          l.drop (selectChunksGo maxTokens l tot).length = c :: rest →
          maxTokens < tot + sumTokens (selectChunksGo maxTokens l tot) + c.tokens := by
  intro l
  induction l with
  | nil =>
    intro tot htot
    refine ⟨⟨[], rfl⟩, ?_, ?_⟩
    · simpa [selectChunksGo, sumTokens_nil] using htot
    · intro c rest h
      simp [selectChunksGo] at h
  | cons c rest ih =>
    intro tot htot
    by_cases hfit : tot + c.tokens ≤ maxTokens
    · obtain ⟨⟨t, ht⟩, hsum, hnext⟩ := ih (tot + c.tokens) hfit
      refine ⟨⟨t, ?_⟩, ?_, ?_⟩
      · simp [selectChunksGo, hfit, ht]
      · simp only [selectChunksGo, hfit, if_pos, sumTokens_cons]
        omega
      · intro d drest hdrop
        simp only [selectChunksGo, hfit, if_pos, List.length_cons, List.drop_succ_cons]
          at hdrop ⊢
        have := hnext d drest hdrop
        simp only [sumTokens_cons]
        omega
    · refine ⟨⟨c :: rest, ?_⟩, ?_, ?_⟩
      · simp [selectChunksGo, hfit]
      · simpa [selectChunksGo, hfit, sumTokens_nil] using htot
      · intro d drest hdrop
        simp only [selectChunksGo, hfit, if_neg, List.length_nil, List.drop_zero] at hdrop
        obtain ⟨rfl, rfl⟩ : d = c ∧ drest = rest := by
          cases hdrop; exact ⟨rfl, rfl⟩
        simp only [selectChunksGo, hfit, if_neg, sumTokens_nil]
        omega

/-- C6: the token-budget packer is greedy in the given order: its selection
is a prefix of the chunk list, the summed token estimate of the selection
never exceeds `maxTokens`, and whenever a chunk is left out, the first
rejected chunk would overflow the budget (so the packer stopped there, with
no reordering and no backfill of later chunks). -/
theorem buildOptimizedContent_greedy_packing (chunks : List ContentChunk) (maxTokens : Nat) :
    (∃ t, selectChunks chunks maxTokens ++ t = chunks)
    ∧ sumTokens (selectChunks chunks maxTokens) ≤ maxTokens
    ∧ ∀ c rest,
        chunks.drop (selectChunks chunks maxTokens).length = c :: rest →
        maxTokens < sumTokens (selectChunks chunks maxTokens) + c.tokens := by
  obtain ⟨hpre, hsum, hnext⟩ :=
    selectChunksGo_spec maxTokens chunks 0 (Nat.zero_le _)
  exact ⟨hpre, by simpa using hsum, by simpa using hnext⟩

/-- Witness for C6 at a concrete chunk list and budget: with chunks of
token costs 100, 150, 80, 40 and budget 300 the packer keeps the prefix of
costs 100 and 150 (total 250), rejects the cost-80 chunk that would
overflow, and does not backfill the later cost-40 chunk. -/
theorem buildOptimizedContent_greedy_packing_witness :
    selectChunks
        [⟨"heading", 90, "a", 100⟩, ⟨"paragraph", 70, "b", 150⟩,
         ⟨"code", 75, "c", 80⟩, ⟨"list", 60, "d", 40⟩] 300
      = [⟨"heading", 90, "a", 100⟩, ⟨"paragraph", 70, "b", 150⟩]
    ∧ 300 <
        sumTokens (selectChunks
          [⟨"heading", 90, "a", 100⟩, ⟨"paragraph", 70, "b", 150⟩,
           ⟨"code", 75, "c", 80⟩, ⟨"list", 60, "d", 40⟩] 300) + 80 := by
  constructor
  · decide
  · exact
      (buildOptimizedContent_greedy_packing
        [⟨"heading", 90, "a", 100⟩, ⟨"paragraph", 70, "b", 150⟩,
         ⟨"code", 75, "c", 80⟩, ⟨"list", 60, "d", 40⟩] 300).2.2
        ⟨"code", 75, "c", 80⟩ [⟨"list", 60, "d", 40⟩] (by decide)

/-- C9: `createAgentState` establishes `stepCount = steps.length` with zero
steps, `addStep` appends exactly one step and increments `stepCount` by
exactly one (regardless of the step's result), and therefore every
operation preserves the invariant `stepCount = steps.length` while the
counter only ever grows. -/
theorem agentState_stepCount_invariant :
    (∀ task cfg now,
        (createAgentState task cfg now).stepCount = 0
        ∧ (createAgentState task cfg now).steps = [])
    ∧ (∀ state step,
        (addStep state step).steps = state.steps ++ [step]
        ∧ (addStep state step).stepCount = state.stepCount + 1)
    ∧ (∀ state step, state.stepCount = state.steps.length →
        (addStep state step).stepCount = (addStep state step).steps.length) := by
  refine ⟨fun task cfg now => ⟨rfl, rfl⟩, fun state step => ⟨rfl, rfl⟩, ?_⟩
  intro state step h
  simp [addStep, h]

/-- Witness for C9 at a concrete state: adding a failed step to a fresh
agent state yields `stepCount = 1 = steps.length`. -/
theorem agentState_stepCount_invariant_witness :
    (addStep (createAgentState "t" DEFAULT_AGENT_CONFIG 0)
        { id := "s1", thought := "th",
          action := BrowserAction.click "Submit" none,
          result := some { success := false, error := some "boom" },
          timestamp := 5 }).stepCount
      = (addStep (createAgentState "t" DEFAULT_AGENT_CONFIG 0)
        { id := "s1", thought := "th",
          action := BrowserAction.click "Submit" none,
          result := some { success := false, error := some "boom" },
          timestamp := 5 }).steps.length := by
  exact agentState_stepCount_invariant.2.2
    (createAgentState "t" DEFAULT_AGENT_CONFIG 0)
    { id := "s1", thought := "th",
      action := BrowserAction.click "Submit" none,
      result := some { success := false, error := some "boom" },
      timestamp := 5 }
    (by decide)

/-- The fields of `PageContext` (`src/shared/types.ts`) that the context
cache reads: the url (cache key) and the content hash used by `hasChanged`;
the remaining payload is carried opaquely by `title` and
`mainContentSnippet`. -/
structure PageContext where
  url : String
  title : String
  mainContentSnippet : String
  hash : Option String := none

/-- `CachedContext` from `src/backend/contextCache.ts`. -/
structure CachedContext where
  context : PageContext
  timestamp : Nat
  url : String
  tabId : Nat

/-- One `setTimeout(() => this.delete(url, tabId), ttl)` scheduled by
`ContextCacheService.set`: it fires at `fireTime` and deletes the entry
keyed by `(tabId, url)`. -/
structure PendingDeletion where
  fireTime : Nat
  url : String
  tabId : Nat

/-- The whole `ContextCacheService` runtime state: the `Map`, the pending
deletion timers, and the current clock (`Date.now()`). -/
structure CacheState where
  entries : List (String × CachedContext)
  timers : List PendingDeletion
  now : Nat

/-- `defaultTTL` of `ContextCacheService` (30 seconds). -/
def defaultTTL : Nat := 30000

/-- `getCacheKey` from `src/backend/contextCache.ts`. -/
def getCacheKey (url : String) (tabId : Nat) : String :=
  toString tabId ++ ":" ++ url

/-- JavaScript `x || d` on an optional millisecond count: `undefined` and
`0` both fall back to the default. -/
def jsOrDefault (x : Option Nat) (d : Nat) : Nat :=
  match x with
  | none => d
  | some v => if v = 0 then d else v

/-- `Map.prototype.set`: replace the binding for the key, or append it. -/
def mapSet (es : List (String × CachedContext)) (k : String) (v : CachedContext) :
    List (String × CachedContext) :=
  match es with
  | [] => [(k, v)]
  | e :: rest => if e.1 == k then (k, v) :: rest else e :: mapSet rest k v

/-- `Map.prototype.get`. -/
def mapGet (es : List (String × CachedContext)) (k : String) : Option CachedContext :=
  match es with
  | [] => none
  | e :: rest => if e.1 == k then some e.2 else mapGet rest k

/-- `Map.prototype.delete`. -/
def mapDeleteKey (es : List (String × CachedContext)) (k : String) :
    List (String × CachedContext) :=
  match es with
  | [] => []
  | e :: rest => if e.1 == k then mapDeleteKey rest k else e :: mapDeleteKey rest k

/-- `ContextCacheService.set`: store the entry under `tabId:url` and
schedule automatic eviction after `ttl || defaultTTL` milliseconds.  The
previously scheduled timers are left untouched. -/
def cacheSet (context : PageContext) (tabId : Nat) (ttl : Option Nat) (s : CacheState) :
    CacheState :=
  let key := getCacheKey context.url tabId
  { entries := mapSet s.entries key
      { context := context, timestamp := s.now, url := context.url, tabId := tabId }
    timers := s.timers ++ [{ fireTime := s.now + jsOrDefault ttl defaultTTL,
                             url := context.url, tabId := tabId }]
    now := s.now }

/-- `ContextCacheService.delete`. -/
def cacheDelete (url : String) (tabId : Nat) (s : CacheState) : CacheState :=
  { s with entries := mapDeleteKey s.entries (getCacheKey url tabId) }

/-- Firing one scheduled deletion executes `delete(url, tabId)` on the map. -/
def fireTimer (es : List (String × CachedContext)) (tm : PendingDeletion) :
    List (String × CachedContext) :=
  mapDeleteKey es (getCacheKey tm.url tm.tabId)

/-- Advance the clock to time `t`: every timer whose fire time has been
reached runs its scheduled `delete`, and is consumed. -/
def advanceTo (t : Nat) (s : CacheState) : CacheState :=
  { entries := (s.timers.filter (fun tm => decide (tm.fireTime ≤ t))).foldl fireTimer s.entries
    timers := s.timers.filter (fun tm => decide (¬ tm.fireTime ≤ t))
    now := t }

/-- `ContextCacheService.get`: look the entry up, and return `null`
(evicting the entry) if its age exceeds `maxAge || defaultTTL`. -/
def cacheGet (url : String) (tabId : Nat) (maxAge : Option Nat) (s : CacheState) :
    Option PageContext × CacheState :=
  let key := getCacheKey url tabId
  match mapGet s.entries key with
  | none => (none, s)
  | some cached =>
    if jsOrDefault maxAge defaultTTL < s.now - cached.timestamp then
      (none, { s with entries := mapDeleteKey s.entries key })
    else
      (some cached.context, s)

lemma mapGet_mapDeleteKey_self (es : List (String × CachedContext)) (k : String) :
    mapGet (mapDeleteKey es k) k = none := by
  induction es with
  | nil => rfl
  | cons e rest ih =>
    by_cases h : e.1 == k
    · simpa [mapDeleteKey, h] using ih
    · simpa [mapDeleteKey, mapGet, h] using ih

lemma mapGet_mapDeleteKey_none (k k2 : String) :
    ∀ es, mapGet es k = none → mapGet (mapDeleteKey es k2) k = none := by
  intro es
  induction es with
  | nil => intro h; exact h
  | cons e rest ih =>
    intro h
    cases he : (e.1 == k) with
    | true => simp [mapGet, he] at h
    | false =>
      have hr : mapGet rest k = none := by simpa [mapGet, he] using h
      cases he2 : (e.1 == k2) with
      | true => simpa [mapDeleteKey, he2] using ih hr
      | false => simpa [mapDeleteKey, mapGet, he2, he] using ih hr

lemma mapGet_foldl_fireTimer_none (k : String) :
    ∀ (tms : List PendingDeletion) (es : List (String × CachedContext)),
      mapGet es k = none → mapGet (tms.foldl fireTimer es) k = none := by
  intro tms
  induction tms with
  | nil => intro es h; simpa using h
  | cons tm rest ih =>
    intro es h
    exact ih _ (mapGet_mapDeleteKey_none _ _ _ h)

lemma mapGet_foldl_fireTimer_member (tm0 : PendingDeletion) :
    ∀ (tms : List PendingDeletion) (es : List (String × CachedContext)),
      tm0 ∈ tms →
      mapGet (tms.foldl fireTimer es) (getCacheKey tm0.url tm0.tabId) = none := by
  intro tms
  induction tms with
  | nil => intro es h; cases h
  | cons tm rest ih =>
    intro es hmem
    rcases List.mem_cons.mp hmem with h | h
    · subst h
      simpa [List.foldl_cons] using
        mapGet_foldl_fireTimer_none _ rest (fireTimer es tm0)
          (mapGet_mapDeleteKey_self _ _)
    · exact ih _ h

/-- C2: store an observation with a positive `ttl`, let more than `ttl`
milliseconds pass (so the scheduled eviction timer has fired), then call
`get` with no explicit `maxAge`: the call returns `null` and the cache
holds no entry for that `(tabId, url)` key afterwards. -/
theorem cacheGet_after_ttl_expired (s0 : CacheState) (context : PageContext)
    (tabId : Nat) (ttl t1 : Nat) (httl : 0 < ttl) (hlate : s0.now + ttl < t1) :
    (cacheGet context.url tabId none (advanceTo t1 (cacheSet context tabId (some ttl) s0))).1
        = none
    ∧ mapGet (cacheGet context.url tabId none
          (advanceTo t1 (cacheSet context tabId (some ttl) s0))).2.entries
        (getCacheKey context.url tabId) = none := by
  have httl0 : ttl ≠ 0 := Nat.pos_iff_ne_zero.mp httl
  have hdelay : jsOrDefault (some ttl) defaultTTL = ttl := by
    simp [jsOrDefault, httl0]
  set tmX : PendingDeletion :=
    { fireTime := s0.now + ttl, url := context.url, tabId := tabId } with htm
  have hmem : tmX ∈ ((cacheSet context tabId (some ttl) s0).timers.filter
      (fun tm => decide (tm.fireTime ≤ t1))) := by
    refine List.mem_filter.mpr ⟨?_, ?_⟩
    · simp [cacheSet, hdelay, htm]
    · simp [htm]
      omega
  have hnone : mapGet (advanceTo t1 (cacheSet context tabId (some ttl) s0)).entries
      (getCacheKey context.url tabId) = none := by
    simpa [advanceTo, htm] using
      mapGet_foldl_fireTimer_member tmX _ (cacheSet context tabId (some ttl) s0).entries hmem
  constructor
  · simp [cacheGet, hnone]
  · simp [cacheGet, hnone]

/-- Witness for C2 at the spec scenario: `set` with `ttl = 1000` at time 0,
`get` at simulated age 1500 returns `null` with the entry removed. -/
theorem cacheGet_after_ttl_expired_witness :
    (cacheGet "https://a.example/" 7 none
        (advanceTo 1500 (cacheSet
          { url := "https://a.example/", title := "A", mainContentSnippet := "c" } 7
          (some 1000) { entries := [], timers := [], now := 0 }))).1 = none := by
  exact (cacheGet_after_ttl_expired { entries := [], timers := [], now := 0 }
    { url := "https://a.example/", title := "A", mainContentSnippet := "c" } 7 1000 1500
    (by decide) (by decide)).1

/-- C10: calling `set` a second time for the same `(tabId, url)` key
replaces the stored entry, but the deletion timer scheduled by the first
`set` is not cancelled; when it fires (first insertion time plus the first
`ttl`) it deletes whatever entry is then stored under the key, so the
replacement entry is evicted even though its own age is still below its own
`ttl`. -/
theorem cacheSet_replacement_evicted_by_stale_timer
    (t0 t1 ttl1 ttl2 tabId : Nat) (ctx1 ctx2 : PageContext)
    (hurl : ctx2.url = ctx1.url)
    (h1 : 0 < ttl1) (h2 : 0 < ttl2)
    (hbefore : t1 < t0 + ttl1) (horder : t0 + ttl1 < t1 + ttl2) :
    (mapGet (cacheSet ctx2 tabId (some ttl2) (advanceTo t1
          (cacheSet ctx1 tabId (some ttl1) { entries := [], timers := [], now := t0 }))).entries
        (getCacheKey ctx1.url tabId)).map CachedContext.context = some ctx2
    ∧ ({ fireTime := t0 + ttl1, url := ctx1.url, tabId := tabId } : PendingDeletion)
        ∈ (cacheSet ctx2 tabId (some ttl2) (advanceTo t1
          (cacheSet ctx1 tabId (some ttl1) { entries := [], timers := [], now := t0 }))).timers
    ∧ mapGet (advanceTo (t0 + ttl1)
          (cacheSet ctx2 tabId (some ttl2) (advanceTo t1
            (cacheSet ctx1 tabId (some ttl1)
              { entries := [], timers := [], now := t0 })))).entries
        (getCacheKey ctx1.url tabId) = none
    ∧ (t0 + ttl1) - t1 < ttl2 := by
  have hd1 : ttl1 ≠ 0 := Nat.pos_iff_ne_zero.mp h1
  have hd2 : ttl2 ≠ 0 := Nat.pos_iff_ne_zero.mp h2
  have hnotdue1 : ¬ t0 + ttl1 ≤ t1 := by omega
  have hnotdue2 : ¬ t1 + ttl2 ≤ t0 + ttl1 := by omega
  refine ⟨?_, ?_, ?_, by omega⟩
  · simp [cacheSet, advanceTo, jsOrDefault, hd1, hd2, mapSet, mapGet, fireTimer,
      mapDeleteKey, hurl, hnotdue1, List.filter]
  · simp [cacheSet, advanceTo, jsOrDefault, hd1, hd2, hnotdue1, List.filter]
  · simp [cacheSet, advanceTo, jsOrDefault, hd1, hd2, mapSet, mapGet, fireTimer,
      mapDeleteKey, hurl, hnotdue1, hnotdue2, List.filter]

/-- Witness for C10: first `set` at time 0 with `ttl = 1000`, second `set`
for the same key at time 500 with `ttl = 1000`; at time 1000 the first
timer fires and evicts the replacement, whose own age is only 500 ms. -/
theorem cacheSet_replacement_evicted_by_stale_timer_witness :
    mapGet (advanceTo 1000
          (cacheSet { url := "https://a.example/", title := "B", mainContentSnippet := "c2" } 7
            (some 1000) (advanceTo 500
            (cacheSet { url := "https://a.example/", title := "A", mainContentSnippet := "c1" } 7
              (some 1000) { entries := [], timers := [], now := 0 })))).entries
        (getCacheKey "https://a.example/" 7) = none
    ∧ 1000 - 500 < 1000 := by
  have h := cacheSet_replacement_evicted_by_stale_timer 0 500 1000 1000 7
    { url := "https://a.example/", title := "A", mainContentSnippet := "c1" }
    { url := "https://a.example/", title := "B", mainContentSnippet := "c2" }
    rfl (by decide) (by decide) (by decide) (by decide)
  exact ⟨h.2.2.1, h.2.2.2⟩

/-- A JavaScript `Error` as observed by the retry wrapper: its `name` and
`message`. -/
structure JsError where
  name : String
  message : String
deriving DecidableEq

/-- Does `hay` start with `needle`? -/
def listStartsWith : List Char → List Char → Bool
  | [], _ => true
  | _ :: _, [] => false
  | a :: as, b :: bs => a == b && listStartsWith as bs

/-- Does `needle` occur as a contiguous run inside `hay`? -/
def listIsInfixOf (needle : List Char) : List Char → Bool
  | [] => listStartsWith needle []
  | c :: rest => listStartsWith needle (c :: rest) || listIsInfixOf needle rest

/-- `String.prototype.includes`. -/
def strIncludes (hay needle : String) : Bool :=
  listIsInfixOf needle.toList hay.toList

/-- `String.prototype.substring(0, n)` (JavaScript), as a character take. -/
def strTake (s : String) (n : Nat) : String :=
  { data := s.data.take n }

/-- The rethrow test inside `retryWithBackoff`
(`src/backend/aiClient.ts`): an error is not retried when it is an
`AbortError` or its message contains `"401"` or `"403"`. -/
def isNonRetryable (e : JsError) : Bool :=
  e.name == "AbortError" || strIncludes e.message "401" || strIncludes e.message "403"

/-- Observable outcome of `retryWithBackoff`: the returned or thrown value,
how many times `fn` was invoked, and the backoff delays slept between
attempts. -/
structure RetryOutcome (α : Type) where
  result : Except JsError α
  attempts : Nat
  delays : List Nat

/-- The attempt loop of `retryWithBackoff`; `fn k` is the outcome of the
`k`-th invocation of the wrapped request, `fuel` counts the remaining loop
iterations (initially `maxRetries`). -/
def retryGo (fn : Nat → Except JsError α) (maxRetries baseDelay : Nat) :
    Nat → Nat → Option JsError → List Nat → RetryOutcome α
  | attempt, 0, lastErr, delays =>
    { result := Except.error (lastErr.getD { name := "Error", message := "Max retries exceeded" })
      attempts := attempt, delays := delays }
  | attempt, fuel + 1, _, delays =>
    match fn attempt with
    | Except.ok v => { result := Except.ok v, attempts := attempt + 1, delays := delays }
    | Except.error e =>
      if isNonRetryable e then
        { result := Except.error e, attempts := attempt + 1, delays := delays }
      else if attempt + 1 < maxRetries then
        retryGo fn maxRetries baseDelay (attempt + 1) fuel (some e)
          (delays ++ [baseDelay * 2 ^ attempt])
      else
        { result := Except.error e, attempts := attempt + 1, delays := delays }

/-- `retryWithBackoff` from `src/backend/aiClient.ts`; `callAI` invokes it
as `retryWithBackoff(fn, 3, 1000)`. -/
def retryWithBackoff (fn : Nat → Except JsError α) (maxRetries baseDelay : Nat) :
    RetryOutcome α :=
  retryGo fn maxRetries baseDelay 0 maxRetries none []

/-- The failure classification of `callAI` (`src/backend/aiClient.ts`) for
a non-ok HTTP response: 401/403 become authentication errors, 429 a
rate-limit error, status ≥ 500 a server error, anything else the generic
client error carrying the status and the first 200 characters of the
response body. -/
def classifyHttpFailure (status : Nat) (providerName : String) (text : String) : JsError :=
  if status == 401 then
    { name := "Error", message := "Authentication failed: Invalid API key for " ++ providerName }
  else if status == 403 then
    { name := "Error",
      message := "Access forbidden: Please check your API key permissions for " ++ providerName }
  else if status == 429 then
    { name := "Error",
      message := "Rate limit exceeded for " ++ providerName ++ ". Please try again later." }
  else if 500 ≤ status then
    { name := "Error",
      message := providerName ++ " server error (" ++ toString status ++ "). Please try again." }
  else
    { name := "Error",
      message := "AI API error (" ++ providerName ++ "): " ++ toString status ++ " "
        ++ strTake text 200 }

lemma retryWithBackoff_three_unfold (fn : Nat → Except JsError α) (b : Nat) :
    retryWithBackoff fn 3 b =
      match fn 0 with
      | Except.ok v => { result := Except.ok v, attempts := 1, delays := [] }
      | Except.error e0 =>
        if isNonRetryable e0 then
          { result := Except.error e0, attempts := 1, delays := [] }
        else
          match fn 1 with
          | Except.ok v => { result := Except.ok v, attempts := 2, delays := [b * 2 ^ 0] }
          | Except.error e1 =>
            if isNonRetryable e1 then
              { result := Except.error e1, attempts := 2, delays := [b * 2 ^ 0] }
            else
              match fn 2 with
              | Except.ok v =>
                { result := Except.ok v, attempts := 3, delays := [b * 2 ^ 0, b * 2 ^ 1] }
              | Except.error e2 =>
                { result := Except.error e2, attempts := 3, delays := [b * 2 ^ 0, b * 2 ^ 1] } := by
  rcases h0 : fn 0 with e0 | v0
  · rcases hn0 : isNonRetryable e0
    · rcases h1 : fn 1 with e1 | v1
      · rcases hn1 : isNonRetryable e1
        · rcases h2 : fn 2 with e2 | v2
          · simp [retryWithBackoff, retryGo, h0, hn0, h1, hn1, h2]
          · simp [retryWithBackoff, retryGo, h0, hn0, h1, hn1, h2]
        · simp [retryWithBackoff, retryGo, h0, hn0, h1, hn1]
      · simp [retryWithBackoff, retryGo, h0, hn0, h1]
    · simp [retryWithBackoff, retryGo, h0, hn0]
  · simp [retryWithBackoff, retryGo, h0]

/-- C3 counterexample: a failure classified as rate-limit (HTTP 429) IS
retried by `retryWithBackoff` — the wrapped request is invoked a second
time after a 1000 ms backoff and its success is returned — contradicting
the claim that retries never occur for 429. -/
theorem retryWithBackoff_retries_rate_limit :
    retryWithBackoff
        (fun k => if k == 0 then Except.error (classifyHttpFailure 429 "OpenAI" "") else Except.ok 42)
        3 1000
      = { result := Except.ok 42, attempts := 2, delays := [1000] } := by
  rfl

/-- C3 amended: `retryWithBackoff(fn, 3, 1000)` makes at most 3 attempts
(so at most 2 retries of a failed request), sleeping `base * 2 ^ attempt`
between consecutive attempts, and it refuses to retry exactly the errors
named `AbortError` or whose message contains the substring `"401"` or
`"403"`; under `callAI`'s classification the rate-limit (429), generic
client (other 4xx), server (≥ 500) and even the authentication (401/403)
failures — whose rewritten messages contain no `"401"`/`"403"` — are all
retryable, and only an abort is not. -/
theorem retryWithBackoff_retry_policy (b : Nat) (fn : Nat → Except JsError Nat) :
    (retryWithBackoff fn 3 b).attempts ≤ 3
    ∧ (retryWithBackoff fn 3 b).delays
        = (List.range ((retryWithBackoff fn 3 b).attempts - 1)).map (fun k => b * 2 ^ k)
    ∧ (∀ e, fn 0 = Except.error e →
        ((retryWithBackoff fn 3 b).attempts = 1 ↔ isNonRetryable e = true))
    ∧ isNonRetryable (classifyHttpFailure 429 "OpenAI" "") = false
    ∧ isNonRetryable (classifyHttpFailure 404 "OpenAI" "Not found") = false
    ∧ isNonRetryable (classifyHttpFailure 500 "OpenAI" "") = false
    ∧ isNonRetryable (classifyHttpFailure 401 "OpenAI" "") = false
    ∧ isNonRetryable (classifyHttpFailure 403 "OpenAI" "") = false
    ∧ isNonRetryable { name := "AbortError", message := "The user aborted a request." } = true := by
  refine ⟨?_, ?_, ?_, by decide, by decide, by decide, by decide, by decide, by decide⟩
  · rw [retryWithBackoff_three_unfold]
    rcases h0 : fn 0 with e0 | v0
    · rcases hn0 : isNonRetryable e0
      · rcases h1 : fn 1 with e1 | v1
        · rcases hn1 : isNonRetryable e1
          · rcases h2 : fn 2 with e2 | v2 <;> simp [hn0, hn1]
          · simp [hn0, hn1]
        · simp [hn0]
      · simp [hn0]
    · simp
  · rw [retryWithBackoff_three_unfold]
    rcases h0 : fn 0 with e0 | v0
    · rcases hn0 : isNonRetryable e0
      · rcases h1 : fn 1 with e1 | v1
        · rcases hn1 : isNonRetryable e1
          · rcases h2 : fn 2 with e2 | v2 <;> simp [hn0, hn1, List.range_succ]
          · simp [hn0, hn1, List.range_succ]
        · simp [hn0, List.range_succ]
      · simp [hn0]
    · simp
  · intro e he
    rw [retryWithBackoff_three_unfold, he]
    rcases hn0 : isNonRetryable e
    · rcases h1 : fn 1 with e1 | v1
      · rcases hn1 : isNonRetryable e1
        · rcases h2 : fn 2 with e2 | v2 <;> simp [hn0, hn1]
        · simp [hn0, hn1]
      · simp [hn0]
    · simp [hn0]

/-- Witness for C3 (amended): with a request that aborts on its first
attempt, `retryWithBackoff` makes exactly one attempt — an `AbortError` is
never retried. -/
theorem retryWithBackoff_retry_policy_witness :
    (retryWithBackoff
        (fun k => if k == 0
          then Except.error { name := "AbortError", message := "The user aborted a request." }
          else Except.ok 0) 3 1000).attempts = 1 := by
  exact ((retryWithBackoff_retry_policy 1000
      (fun k => if k == 0
        then Except.error { name := "AbortError", message := "The user aborted a request." }
        else Except.ok 0)).2.2.1
    { name := "AbortError", message := "The user aborted a request." } rfl).mpr (by decide)

/-- What one `RUN_AGENT_STEP` round of the loop body yields: either the
background script answered with an error (or messaging threw), or a parsed
decision. -/
inductive StepOutcome where
  | stepError (message : String) : StepOutcome
  | decision (thought : String) (action : BrowserAction) : StepOutcome

/-- The environment of one iteration of `runAgentLoop`
(`src/ui/components/AgentController.tsx`): the value of `abortRef.current`
read by the `while` condition, the wall clock at the top of the iteration
(which the loop never consults), the id/timestamp minted by the background
script, the model round's outcome, and the `ActionResult` produced by
executing a non-`done` action. -/
structure IterEvent where
  abortFlag : Bool
  now : Nat
  stepId : String
  timestamp : Nat
  outcome : StepOutcome
  execResult : ActionResult

/-- Why the loop ended. -/
inductive LoopEnd where
  | doneAction : LoopEnd
  | maxStepsReached : LoopEnd
  | abortedByUser : LoopEnd
  | errored (message : String) : LoopEnd

/-- Either the loop ended with a reason, or the supplied event trace ran
out while the loop would still continue. -/
inductive LoopResult where
  | ended (reason : LoopEnd) (steps : List AgentStep) : LoopResult
  | running (steps : List AgentStep) : LoopResult

/-- The `while` loop of `runAgentLoop`
(`src/ui/components/AgentController.tsx`): the condition checks only
`!abortRef.current && currentSteps.length < maxSteps`; inside, an error
from the step request breaks the run, a `done` action records a successful
step and breaks, any other action is executed and its result recorded
before looping. -/
def runAgentLoop (maxSteps : Nat) : List IterEvent → List AgentStep → LoopResult
  | [], steps => LoopResult.running steps
  | ev :: rest, steps =>
    if ev.abortFlag then LoopResult.ended LoopEnd.abortedByUser steps
    else if maxSteps ≤ steps.length then LoopResult.ended LoopEnd.maxStepsReached steps
    else
      match ev.outcome with
      | StepOutcome.stepError m => LoopResult.ended (LoopEnd.errored m) steps
      | StepOutcome.decision thought action =>
        match action with
        | BrowserAction.done summary =>
          LoopResult.ended LoopEnd.doneAction
            (steps ++ [{ id := ev.stepId, thought := thought,
                         action := BrowserAction.done summary,
                         result := some { success := true }, timestamp := ev.timestamp }])
        | a =>
          runAgentLoop maxSteps rest
            (steps ++ [{ id := ev.stepId, thought := thought, action := a,
                         result := some ev.execResult, timestamp := ev.timestamp }])

/-- Is the model round's outcome an error? -/
def isErrorOutcome : StepOutcome → Bool
  | StepOutcome.stepError _ => true
  | StepOutcome.decision _ _ => false

/-- Is the model round's outcome a `done` decision? -/
def isDoneOutcome : StepOutcome → Bool
  | StepOutcome.decision _ (BrowserAction.done _) => true
  | _ => false

/-- The conditions that actually end an iteration of `runAgentLoop`, given
the number of steps recorded so far. -/
def loopStopsAt (maxSteps count : Nat) (ev : IterEvent) : Bool :=
  ev.abortFlag || decide (maxSteps ≤ count)
    || isErrorOutcome ev.outcome || isDoneOutcome ev.outcome

/-- Did the loop end (as opposed to running out of trace)? -/
def isEnded : LoopResult → Bool
  | LoopResult.ended _ _ => true
  | LoopResult.running _ => false

lemma exists_fin_get_cons {α : Type} (P : Nat → α → Prop) (a : α) (l : List α) :
    (∃ k, ∃ h : k < (a :: l).length, P k ((a :: l).get ⟨k, h⟩))
      ↔ P 0 a ∨ ∃ k, ∃ h : k < l.length, P (k + 1) (l.get ⟨k, h⟩) := by
  constructor
  · rintro ⟨k, hk, hp⟩
    cases k with
    | zero => exact Or.inl hp
    | succ k => exact Or.inr ⟨k, Nat.lt_of_succ_lt_succ hk, hp⟩
  · rintro (hp | ⟨k, hk, hp⟩)
    · exact ⟨0, Nat.succ_pos _, hp⟩
    · exact ⟨k + 1, Nat.succ_lt_succ hk, hp⟩

lemma runAgentLoop_ended_iff (maxSteps : Nat) :
    ∀ (events : List IterEvent) (steps : List AgentStep),
      isEnded (runAgentLoop maxSteps events steps) = true
        ↔ ∃ k, ∃ h : k < events.length,
            loopStopsAt maxSteps (steps.length + k) (events.get ⟨k, h⟩) = true := by
  intro events
  induction events with
  | nil =>
    intro steps
    simp [runAgentLoop, isEnded]
  | cons ev rest ih =>
    intro steps
    rw [exists_fin_get_cons (fun k e => loopStopsAt maxSteps (steps.length + k) e = true)]
    by_cases ha : ev.abortFlag = true
    · simp [runAgentLoop, ha, isEnded, loopStopsAt]
    · replace ha : ev.abortFlag = false := by
        cases hb : ev.abortFlag
        · rfl
        · exact absurd hb ha
      by_cases hm : maxSteps ≤ steps.length
      · simp [runAgentLoop, ha, hm, isEnded, loopStopsAt]
      · cases ho : ev.outcome with
        | stepError m =>
          simp [runAgentLoop, ha, hm, ho, isEnded, loopStopsAt, isErrorOutcome]
        | decision thought action =>
          have hstop0 : ∀ hdone : isDoneOutcome ev.outcome = false,
              (loopStopsAt maxSteps (steps.length + 0) ev = true) = False := by
            intro hdone
            rw [ho] at hdone
            simp [loopStopsAt, ha, hm, ho, isErrorOutcome, hdone]
          cases action with
          | done summary =>
            simp [runAgentLoop, ha, hm, ho, isEnded, loopStopsAt, isDoneOutcome]
          | navigate url =>
            rw [show runAgentLoop maxSteps (ev :: rest) steps
                = runAgentLoop maxSteps rest
                    (steps ++ [{ id := ev.stepId, thought := thought,
                                 action := BrowserAction.navigate url,
                                 result := some ev.execResult, timestamp := ev.timestamp }]) by
              simp [runAgentLoop, ha, hm, ho]]
            rw [ih]
            rw [hstop0 (by simp [isDoneOutcome, ho])]
            have harith : ∀ k : Nat, steps.length + 1 + k = steps.length + (k + 1) := by
              intro k; omega
            simp only [List.length_append, List.length_cons, List.length_nil, harith,
              Nat.zero_add, false_or]
          | click sel txt =>
            rw [show runAgentLoop maxSteps (ev :: rest) steps
                = runAgentLoop maxSteps rest
                    (steps ++ [{ id := ev.stepId, thought := thought,
                                 action := BrowserAction.click sel txt,
                                 result := some ev.execResult, timestamp := ev.timestamp }]) by
              simp [runAgentLoop, ha, hm, ho]]
            rw [ih]
            rw [hstop0 (by simp [isDoneOutcome, ho])]
            have harith : ∀ k : Nat, steps.length + 1 + k = steps.length + (k + 1) := by
              intro k; omega
            simp only [List.length_append, List.length_cons, List.length_nil, harith,
              Nat.zero_add, false_or]
          | typeText sel txt clear =>
            rw [show runAgentLoop maxSteps (ev :: rest) steps
                = runAgentLoop maxSteps rest
                    (steps ++ [{ id := ev.stepId, thought := thought,
                                 action := BrowserAction.typeText sel txt clear,
                                 result := some ev.execResult, timestamp := ev.timestamp }]) by
              simp [runAgentLoop, ha, hm, ho]]
            rw [ih]
            rw [hstop0 (by simp [isDoneOutcome, ho])]
            have harith : ∀ k : Nat, steps.length + 1 + k = steps.length + (k + 1) := by
              intro k; omega
            simp only [List.length_append, List.length_cons, List.length_nil, harith,
              Nat.zero_add, false_or]
          | scroll dir sel =>
            rw [show runAgentLoop maxSteps (ev :: rest) steps
                = runAgentLoop maxSteps rest
                    (steps ++ [{ id := ev.stepId, thought := thought,
                                 action := BrowserAction.scroll dir sel,
                                 result := some ev.execResult, timestamp := ev.timestamp }]) by
              simp [runAgentLoop, ha, hm, ho]]
            rw [ih]
            rw [hstop0 (by simp [isDoneOutcome, ho])]
            have harith : ∀ k : Nat, steps.length + 1 + k = steps.length + (k + 1) := by
              intro k; omega
            simp only [List.length_append, List.length_cons, List.length_nil, harith,
              Nat.zero_add, false_or]
          | wait sel timeout =>
            rw [show runAgentLoop maxSteps (ev :: rest) steps
                = runAgentLoop maxSteps rest
                    (steps ++ [{ id := ev.stepId, thought := thought,
                                 action := BrowserAction.wait sel timeout,
                                 result := some ev.execResult, timestamp := ev.timestamp }]) by
              simp [runAgentLoop, ha, hm, ho]]
            rw [ih]
            rw [hstop0 (by simp [isDoneOutcome, ho])]
            have harith : ∀ k : Nat, steps.length + 1 + k = steps.length + (k + 1) := by
              intro k; omega
            simp only [List.length_append, List.length_cons, List.length_nil, harith,
              Nat.zero_add, false_or]
          | extract sel attr =>
            rw [show runAgentLoop maxSteps (ev :: rest) steps
                = runAgentLoop maxSteps rest
                    (steps ++ [{ id := ev.stepId, thought := thought,
                                 action := BrowserAction.extract sel attr,
                                 result := some ev.execResult, timestamp := ev.timestamp }]) by
              simp [runAgentLoop, ha, hm, ho]]
            rw [ih]
            rw [hstop0 (by simp [isDoneOutcome, ho])]
            have harith : ∀ k : Nat, steps.length + 1 + k = steps.length + (k + 1) := by
              intro k; omega
            simp only [List.length_append, List.length_cons, List.length_nil, harith,
              Nat.zero_add, false_or]
          | hover sel =>
            rw [show runAgentLoop maxSteps (ev :: rest) steps
                = runAgentLoop maxSteps rest
                    (steps ++ [{ id := ev.stepId, thought := thought,
                                 action := BrowserAction.hover sel,
                                 result := some ev.execResult, timestamp := ev.timestamp }]) by
              simp [runAgentLoop, ha, hm, ho]]
            rw [ih]
            rw [hstop0 (by simp [isDoneOutcome, ho])]
            have harith : ∀ k : Nat, steps.length + 1 + k = steps.length + (k + 1) := by
              intro k; omega
            simp only [List.length_append, List.length_cons, List.length_nil, harith,
              Nat.zero_add, false_or]
          | select sel value =>
            rw [show runAgentLoop maxSteps (ev :: rest) steps
                = runAgentLoop maxSteps rest
                    (steps ++ [{ id := ev.stepId, thought := thought,
                                 action := BrowserAction.select sel value,
                                 result := some ev.execResult, timestamp := ev.timestamp }]) by
              simp [runAgentLoop, ha, hm, ho]]
            rw [ih]
            rw [hstop0 (by simp [isDoneOutcome, ho])]
            have harith : ∀ k : Nat, steps.length + 1 + k = steps.length + (k + 1) := by
              intro k; omega
            simp only [List.length_append, List.length_cons, List.length_nil, harith,
              Nat.zero_add, false_or]
          | pressKey key =>
            rw [show runAgentLoop maxSteps (ev :: rest) steps
                = runAgentLoop maxSteps rest
                    (steps ++ [{ id := ev.stepId, thought := thought,
                                 action := BrowserAction.pressKey key,
                                 result := some ev.execResult, timestamp := ev.timestamp }]) by
              simp [runAgentLoop, ha, hm, ho]]
            rw [ih]
            rw [hstop0 (by simp [isDoneOutcome, ho])]
            have harith : ∀ k : Nat, steps.length + 1 + k = steps.length + (k + 1) := by
              intro k; omega
            simp only [List.length_append, List.length_cons, List.length_nil, harith,
              Nat.zero_add, false_or]

lemma runAgentLoop_stops_before_model (maxSteps : Nat) (steps : List AgentStep)
    (ev : IterEvent) (rest : List IterEvent)
    (h : ev.abortFlag = true ∨ maxSteps ≤ steps.length) (o : StepOutcome) :
    runAgentLoop maxSteps ({ ev with outcome := o } :: rest) steps
      = LoopResult.ended
          (if ev.abortFlag then LoopEnd.abortedByUser else LoopEnd.maxStepsReached) steps := by
  cases hb : ev.abortFlag with
  | true => simp [runAgentLoop, hb]
  | false =>
    rcases h with h | h
    · rw [hb] at h; cases h
    · simp [runAgentLoop, hb, h]

/-- C1 counterexample: at an iteration whose elapsed time (120000 ms from
a start at 0) exceeds `DEFAULT_AGENT_CONFIG.timeoutMs` (60000 ms) — so the
code's own stop predicate `shouldStopAgent` reports stop — the run loop
does NOT terminate: it contacts the model, executes the decided click and
records a step, because the `while` condition consults only the abort flag
and the step count, never the clock (and never the pause flag). -/
theorem runAgentLoop_ignores_timeout :
    (shouldStopAgent (createAgentState "task" DEFAULT_AGENT_CONFIG 0)
        DEFAULT_AGENT_CONFIG 120000).stop = true
    ∧ runAgentLoop DEFAULT_AGENT_CONFIG.maxSteps
        [{ abortFlag := false, now := 120000, stepId := "s1", timestamp := 120000,
           outcome := StepOutcome.decision "th" (BrowserAction.click "Submit" none),
           execResult := { success := true } }] []
      = LoopResult.running
          [{ id := "s1", thought := "th", action := BrowserAction.click "Submit" none,
             result := some { success := true }, timestamp := 120000 }] := by
  exact ⟨rfl, rfl⟩

/-- C1 amended: the run loop of `runAgentLoop` terminates if and only if
some iteration hits one of: the abort flag set by the Stop button,
`steps.length >= maxSteps`, an error while contacting the model or parsing
its reply, or a `done` decision; the flag and step-count conditions end the
loop immediately without contacting the model (the outcome of the round is
irrelevant and no step is recorded).  Elapsed time and the pause flag are
not consulted by the loop (`shouldStopAgent`, which would check them, is
not invoked). -/
theorem runAgentLoop_termination_conditions (maxSteps : Nat)
    (events : List IterEvent) (steps : List AgentStep) :
    (isEnded (runAgentLoop maxSteps events steps) = true
      ↔ ∃ k, ∃ h : k < events.length,
          loopStopsAt maxSteps (steps.length + k) (events.get ⟨k, h⟩) = true)
    ∧ (∀ (ev : IterEvent) (rest : List IterEvent),
        ev.abortFlag = true ∨ maxSteps ≤ steps.length →
        ∀ o : StepOutcome,
          runAgentLoop maxSteps ({ ev with outcome := o } :: rest) steps
            = LoopResult.ended
                (if ev.abortFlag then LoopEnd.abortedByUser else LoopEnd.maxStepsReached)
                steps) := by
  exact ⟨runAgentLoop_ended_iff maxSteps events steps,
    fun ev rest h o => runAgentLoop_stops_before_model maxSteps steps ev rest h o⟩

/-- Witness for C1 (amended): with the abort flag set at the top of the
iteration the loop ends immediately as user-aborted, recording nothing,
whatever the model round would have produced. -/
theorem runAgentLoop_termination_conditions_witness :
    runAgentLoop 20
        [{ abortFlag := true, now := 0, stepId := "s1", timestamp := 0,
           outcome := StepOutcome.decision "th" (BrowserAction.navigate "https://x.example/"),
           execResult := { success := true } }] []
      = LoopResult.ended LoopEnd.abortedByUser [] := by
  have h := (runAgentLoop_termination_conditions 20
      [{ abortFlag := true, now := 0, stepId := "s1", timestamp := 0,
         outcome := StepOutcome.decision "th" (BrowserAction.navigate "https://x.example/"),
         execResult := { success := true } }] []).2
    { abortFlag := true, now := 0, stepId := "s1", timestamp := 0,
      outcome := StepOutcome.decision "th" (BrowserAction.navigate "https://x.example/"),
      execResult := { success := true } } []
    (Or.inl rfl)
    (StepOutcome.decision "th" (BrowserAction.navigate "https://x.example/"))
  simpa using h

/-- ASCII lowering of one character (`String.prototype.toLowerCase` on the
code points the agent compares). -/
def charToLower (c : Char) : Char :=
  if c.toNat ≥ 65 && c.toNat ≤ 90 then Char.ofNat (c.toNat + 32) else c

/-- JavaScript `toLowerCase`. -/
def jsToLower (s : String) : String :=
  String.mk (s.data.map charToLower)

/-- JavaScript `trim`: strip leading and trailing whitespace. -/
def jsTrim (s : String) : String :=
  String.mk (((s.data.dropWhile Char.isWhitespace).reverse.dropWhile
    Char.isWhitespace).reverse)

/-- `text.toLowerCase().trim()`, the normalization applied to both the
search string and candidate text by the selector engine. -/
def jsNormalize (s : String) : String :=
  jsTrim (jsToLower s)

/-- The facets of a DOM element read by the smart selector engine
(`src/content/smartSelector.ts`): layout/visibility state, text content,
and the attributes each strategy inspects.  `textCandidate` records whether
the element matches the interactive/text-bearing selector list that
`findByText` queries. -/
structure Elem where
  tagName : String
  hasOffsetParent : Bool
  display : String
  visibility : String
  opacity : String
  rectWidth : ℚ
  rectHeight : ℚ
  textContent : String
  ariaLabel : Option String := none
  placeholder : Option String := none
  titleAttr : Option String := none
  dataAttrValues : List String := []
  role : Option String := none
  textCandidate : Bool := false
deriving DecidableEq

/-- `isVisible` from `src/content/smartSelector.ts`: offset parent (except
for BODY/HTML), computed style, and a non-zero bounding rect. -/
def isVisible (el : Elem) : Bool :=
  if !el.hasOffsetParent && el.tagName != "BODY" && el.tagName != "HTML" then false
  else if el.display == "none" || el.visibility == "hidden" || el.opacity == "0" then false
  else if el.rectWidth == 0 || el.rectHeight == 0 then false
  else true

lemma length_dropWhile_le_self (p : Char → Bool) (l : List Char) :
    (l.dropWhile p).length ≤ l.length := by
  induction l with
  | nil => simp [List.dropWhile]
  | cons c rest ih =>
    cases hp : p c
    · simp [List.dropWhile, hp]
    · simp only [List.dropWhile, hp, List.length_cons]
      omega

/-- JavaScript `str.split(/\s+/)`: cut at every maximal whitespace run,
keeping the (possibly empty) segments before and after boundary runs. -/
def jsSplitWsGo : List Char → List Char → List String
  | [], acc => [String.mk acc.reverse]
  | c :: rest, acc =>
    if c.isWhitespace then
      String.mk acc.reverse :: jsSplitWsGo (rest.dropWhile Char.isWhitespace) []
    else
      jsSplitWsGo rest (c :: acc)
termination_by l _ => l.length
decreasing_by
  · simp only [List.length_cons]
    have := length_dropWhile_le_self Char.isWhitespace rest
    omega
  · simp only [List.length_cons]
    omega

/-- `search.split(/\s+/)` as used by `calculateMatchScore`. -/
def jsSplitWhitespace (s : String) : List String :=
  jsSplitWsGo s.toList []

/-- `calculateMatchScore` from `src/content/smartSelector.ts`: exact match
100; target-contains-search `80 + (searchLen/targetLen)*20`;
search-contains-target `60 + (targetLen/searchLen)*20`; otherwise the
matched-word fraction times 50, a word matching when it and a target word
contain one another either way. -/
def calculateMatchScore (search target : String) : ℚ :=
  if search == target then 100
  else if strIncludes target search then
    80 + ((search.length : ℚ) / (target.length : ℚ)) * 20
  else if strIncludes search target then
    60 + ((target.length : ℚ) / (search.length : ℚ)) * 20
  else
    let searchWords := jsSplitWhitespace search
    let targetWords := jsSplitWhitespace target
    let matchedWords := (searchWords.filter (fun sw =>
      targetWords.any (fun tw => strIncludes tw sw || strIncludes sw tw))).length
    ((matchedWords : ℚ) / (searchWords.length : ℚ)) * 50

/-- The scoring rule exactly as the specification words it, written
independently of the source: exact equality scores 100; a target containing
the search scores `80 + (searchLen/targetLen)*20`; a search containing the
target scores `60 + (targetLen/searchLen)*20`; otherwise the fraction of
search words overlapping some target word, times 50. -/
def claimMatchScore (search target : String) : ℚ :=
  if search = target then 100
  else if strIncludes target search then
    80 + ((search.length : ℚ) / (target.length : ℚ)) * 20
  else if strIncludes search target then
    60 + ((target.length : ℚ) / (search.length : ℚ)) * 20
  else
    (((jsSplitWhitespace search).filter (fun sw =>
        (jsSplitWhitespace target).any (fun tw =>
          strIncludes tw sw || strIncludes sw tw))).length : ℚ)
      / ((jsSplitWhitespace search).length : ℚ) * 50

/-- `ElementMatch` from `src/content/smartSelector.ts`. -/
structure ElementMatch where
  element : Elem
  score : ℚ
  method : String
deriving DecidableEq

/-- The elements `findByText` iterates: those matching its
interactive/text-bearing `querySelectorAll` list. -/
def textSearchPool (doc : List Elem) : List Elem :=
  doc.filter (fun el => el.textCandidate)

/-- The exact branch of `findByText`: first visible element whose
normalized text equals the normalized search. -/
def findByTextExactGo (searchNorm : String) (visible : Bool) : List Elem → Option Elem
  | [] => none
  | el :: rest =>
    if visible && !isVisible el then findByTextExactGo searchNorm visible rest
    else if (jsNormalize el.textContent) == searchNorm then some el
    else findByTextExactGo searchNorm visible rest

/-- Is an element considered by the fuzzy branch of `findByText`: it passes
the visibility skip and its normalized text and the search contain one
another in at least one direction. -/
def fuzzyEligible (searchNorm : String) (visible : Bool) (el : Elem) : Bool :=
  !(visible && !isVisible el)
    && (strIncludes (jsNormalize el.textContent) searchNorm
        || strIncludes searchNorm (jsNormalize el.textContent))

/-- The fuzzy branch of `findByText`: scan the pool keeping the strictly
best-scoring match seen so far. -/
def findByTextGo (searchNorm : String) (visible : Bool) :
    List Elem → Option ElementMatch → Option ElementMatch
  | [], best => best
  | el :: rest, best =>
    if visible && !isVisible el then findByTextGo searchNorm visible rest best
    else
      let elText := (jsNormalize el.textContent)
      if strIncludes elText searchNorm || strIncludes searchNorm elText then
        let score := calculateMatchScore searchNorm elText
        match best with
        | none =>
          findByTextGo searchNorm visible rest
            (some { element := el, score := score, method := "text" })
        | some b =>
          if b.score < score then
            findByTextGo searchNorm visible rest
              (some { element := el, score := score, method := "text" })
          else
            findByTextGo searchNorm visible rest (some b)
      else findByTextGo searchNorm visible rest best

/-- `findByText` in fuzzy mode (`exact: false`) over a document's text
pool. -/
def findByTextFuzzy (text : String) (visible : Bool) (doc : List Elem) : Option Elem :=
  (findByTextGo (jsNormalize text) visible (textSearchPool doc) none).map ElementMatch.element

lemma findByTextGo_best (searchNorm : String) (visible : Bool) :
    ∀ (l : List Elem) (best : Option ElementMatch) (m : ElementMatch),
      findByTextGo searchNorm visible l best = some m →
      (best = some m
        ∨ (m.element ∈ l ∧ fuzzyEligible searchNorm visible m.element = true
            ∧ m.score = calculateMatchScore searchNorm (jsNormalize m.element.textContent)))
      ∧ (∀ el ∈ l, fuzzyEligible searchNorm visible el = true →
          calculateMatchScore searchNorm (jsNormalize el.textContent) ≤ m.score)
      ∧ (∀ b, best = some b → b.score ≤ m.score) := by
  intro l
  induction l with
  | nil =>
    intro best m h
    simp only [findByTextGo] at h
    refine ⟨Or.inl h, ?_, ?_⟩
    · intro el hel; cases hel
    · intro b hb; rw [hb] at h; cases h; exact le_refl _
  | cons el rest ih =>
    intro best m h
    by_cases hskip : (visible && !isVisible el) = true
    · have hel : fuzzyEligible searchNorm visible el = false := by
        simp only [fuzzyEligible, hskip, Bool.not_true, Bool.false_and]
      rw [findByTextGo, if_pos hskip] at h
      obtain ⟨h1, h2, h3⟩ := ih best m h
      refine ⟨?_, ?_, h3⟩
      · rcases h1 with h1 | ⟨hm, he, hs⟩
        · exact Or.inl h1
        · exact Or.inr ⟨List.mem_cons_of_mem _ hm, he, hs⟩
      · intro e he helig
        rcases List.mem_cons.mp he with rfl | he2
        · rw [helig] at hel; cases hel
        · exact h2 e he2 helig
    · replace hskip : (visible && !isVisible el) = false := by
        cases hb : (visible && !isVisible el)
        · rfl
        · exact absurd hb hskip
      by_cases hcont : (strIncludes (jsNormalize el.textContent) searchNorm
          || strIncludes searchNorm (jsNormalize el.textContent)) = true
      · have helig : fuzzyEligible searchNorm visible el = true := by
          simp only [fuzzyEligible, hskip, Bool.not_false, Bool.true_and]
          exact hcont
        rw [findByTextGo, if_neg (by simp [hskip])] at h
        simp only [hcont, if_pos] at h
        cases best with
        | none =>
          replace h : findByTextGo searchNorm visible rest
              (some { element := el,
                      score := calculateMatchScore searchNorm (jsNormalize el.textContent),
                      method := "text" }) = some m := h
          obtain ⟨h1, h2, h3⟩ := ih _ m h
          have hbase : calculateMatchScore searchNorm (jsNormalize el.textContent) ≤ m.score :=
            h3 _ rfl
          refine ⟨?_, ?_, ?_⟩
          · rcases h1 with h1 | h1
            · cases h1
              exact Or.inr ⟨List.mem_cons_self _ _, helig, rfl⟩
            · exact Or.inr ⟨List.mem_cons_of_mem _ h1.1, h1.2.1, h1.2.2⟩
          · intro e he helig2
            rcases List.mem_cons.mp he with rfl | he2
            · exact hbase
            · exact h2 e he2 helig2
          · intro b hb
            simp at hb
        | some b =>
          replace h : (if b.score < calculateMatchScore searchNorm (jsNormalize el.textContent)
              then findByTextGo searchNorm visible rest
                (some { element := el,
                        score := calculateMatchScore searchNorm (jsNormalize el.textContent),
                        method := "text" })
              else findByTextGo searchNorm visible rest (some b)) = some m := h
          by_cases hlt : b.score < calculateMatchScore searchNorm (jsNormalize el.textContent)
          · rw [if_pos hlt] at h
            obtain ⟨h1, h2, h3⟩ := ih _ m h
            have hbase : calculateMatchScore searchNorm (jsNormalize el.textContent) ≤ m.score :=
              h3 _ rfl
            refine ⟨?_, ?_, ?_⟩
            · rcases h1 with h1 | h1
              · cases h1
                exact Or.inr ⟨List.mem_cons_self _ _, helig, rfl⟩
              · exact Or.inr ⟨List.mem_cons_of_mem _ h1.1, h1.2.1, h1.2.2⟩
            · intro e he helig2
              rcases List.mem_cons.mp he with rfl | he2
              · exact hbase
              · exact h2 e he2 helig2
            · intro b2 hb2
              cases hb2
              exact le_trans (le_of_lt hlt) hbase
          · rw [if_neg hlt] at h
            obtain ⟨h1, h2, h3⟩ := ih _ m h
            have hbesc : b.score ≤ m.score := h3 _ rfl
            refine ⟨?_, ?_, ?_⟩
            · rcases h1 with h1 | h1
              · exact Or.inl h1
              · exact Or.inr ⟨List.mem_cons_of_mem _ h1.1, h1.2.1, h1.2.2⟩
            · intro e he helig2
              rcases List.mem_cons.mp he with rfl | he2
              · exact le_trans (not_lt.mp hlt) hbesc
              · exact h2 e he2 helig2
            · intro b2 hb2
              cases hb2
              exact hbesc
      · have hel : fuzzyEligible searchNorm visible el = false := by
          simp only [fuzzyEligible, hskip, Bool.not_false, Bool.true_and]
          cases hcb : (strIncludes (jsNormalize el.textContent) searchNorm
              || strIncludes searchNorm (jsNormalize el.textContent))
          · rfl
          · exact absurd hcb hcont
        rw [findByTextGo, if_neg (by simp [hskip])] at h
        simp only [hcont] at h
        obtain ⟨h1, h2, h3⟩ := ih best m h
        refine ⟨?_, ?_, h3⟩
        · rcases h1 with h1 | ⟨hm, he, hs⟩
          · exact Or.inl h1
          · exact Or.inr ⟨List.mem_cons_of_mem _ hm, he, hs⟩
        · intro e he helig
          rcases List.mem_cons.mp he with rfl | he2
          · rw [helig] at hel; cases hel
          · exact h2 e he2 helig

/-- The document surface the selector engine works on: the element list (in
document order) and the platform's `querySelector`, which is outside the
model and supplied as an oracle. -/
structure DomDoc where
  elements : List Elem
  cssQuery : String → Option Elem

/-- `String.prototype.startsWith`. -/
def strStartsWith (s pre : String) : Bool :=
  listStartsWith pre.data s.data

/-- The guard of `tryCSS`: the string looks like a CSS selector when it
starts with `.` or `#`, contains `[` or `>`, or is letters only
(`/^[a-z]+$/i`). -/
def looksLikeCSS (selector : String) : Bool :=
  strStartsWith selector "." || strStartsWith selector "#"
    || strIncludes selector "[" || strIncludes selector ">"
    || (decide (selector.length > 0) && selector.toList.all Char.isAlpha)

/-- `tryCSS` from `src/content/smartSelector.ts`. -/
def tryCSS (doc : DomDoc) (selector : String) : Option Elem :=
  if looksLikeCSS selector then doc.cssQuery selector else none

/-- `findByAriaLabel`: first (visible) element whose `aria-label` contains
the normalized search. -/
def findByAriaLabel (searchNorm : String) (visible : Bool) : List Elem → Option Elem
  | [] => none
  | el :: rest =>
    match el.ariaLabel with
    | none => findByAriaLabel searchNorm visible rest
    | some label =>
      if visible && !isVisible el then findByAriaLabel searchNorm visible rest
      else if strIncludes (jsToLower label) searchNorm then some el
      else findByAriaLabel searchNorm visible rest

/-- `findByPlaceholder`. -/
def findByPlaceholder (searchNorm : String) (visible : Bool) : List Elem → Option Elem
  | [] => none
  | el :: rest =>
    match el.placeholder with
    | none => findByPlaceholder searchNorm visible rest
    | some p =>
      if visible && !isVisible el then findByPlaceholder searchNorm visible rest
      else if strIncludes (jsToLower p) searchNorm then some el
      else findByPlaceholder searchNorm visible rest

/-- `findByTitle`. -/
def findByTitle (searchNorm : String) (visible : Bool) : List Elem → Option Elem
  | [] => none
  | el :: rest =>
    match el.titleAttr with
    | none => findByTitle searchNorm visible rest
    | some t =>
      if visible && !isVisible el then findByTitle searchNorm visible rest
      else if strIncludes (jsToLower t) searchNorm then some el
      else findByTitle searchNorm visible rest

/-- `findByDataAttribute`: first (visible) element one of whose `data-*`
attribute values contains the normalized search. -/
def findByDataAttribute (searchNorm : String) (visible : Bool) : List Elem → Option Elem
  | [] => none
  | el :: rest =>
    if visible && !isVisible el then findByDataAttribute searchNorm visible rest
    else if el.dataAttrValues.any (fun v => strIncludes (jsToLower v) searchNorm) then some el
    else findByDataAttribute searchNorm visible rest

/-- Inner loop of `findByRoleAndText` for one role. -/
def findByRoleGo (searchNorm : String) (visible : Bool) (role : String) :
    List Elem → Option Elem
  | [] => none
  | el :: rest =>
    if el.role == some role then
      if visible && !isVisible el then findByRoleGo searchNorm visible role rest
      else if strIncludes (jsToLower el.textContent) searchNorm then some el
      else findByRoleGo searchNorm visible role rest
    else findByRoleGo searchNorm visible role rest

/-- `findByRoleAndText`: roles tried in the fixed order
button, link, tab, menuitem, option. -/
def findByRolesGo (searchNorm : String) (visible : Bool) (els : List Elem) :
    List String → Option Elem
  | [] => none
  | r :: rs =>
    match findByRoleGo searchNorm visible r els with
    | some e => some e
    | none => findByRolesGo searchNorm visible els rs

/-- The candidate-acceptance loop of `smartFind`: try each strategy result
in order, returning the first element that passes the visibility gate
(`element && (!visible || isVisible(element))`). -/
def smartFindGo (visible : Bool) : List (Option Elem) → Option Elem
  | [] => none
  | r :: rest =>
    match r with
    | some el => if !visible || isVisible el then some el else smartFindGo visible rest
    | none => smartFindGo visible rest

/-- `smartFind` from `src/content/smartSelector.ts`: the eight strategies
in source order, each candidate gated by the visibility check. -/
def smartFind (selector : String) (visible : Bool) (doc : DomDoc) : Option Elem :=
  smartFindGo visible
    [ tryCSS doc selector
    , findByTextExactGo (jsNormalize selector) visible (textSearchPool doc.elements)
    , findByTextFuzzy selector visible doc.elements
    , findByAriaLabel (jsNormalize selector) visible doc.elements
    , findByPlaceholder (jsNormalize selector) visible doc.elements
    , findByTitle (jsNormalize selector) visible doc.elements
    , findByDataAttribute (jsNormalize selector) visible doc.elements
    , findByRolesGo (jsNormalize selector) visible doc.elements
        ["button", "link", "tab", "menuitem", "option"] ]

lemma smartFindGo_visible (results : List (Option Elem)) (el : Elem)
    (h : smartFindGo true results = some el) : isVisible el = true := by
  induction results with
  | nil => cases h
  | cons r rest ih =>
    cases r with
    | none => exact ih h
    | some e =>
      by_cases hv : isVisible e = true
      · rw [smartFindGo] at h
        simp only [hv, Bool.not_true, Bool.false_or, if_pos] at h
        cases h
        exact hv
      · replace hv : isVisible e = false := by
          cases hb : isVisible e
          · rfl
          · exact absurd hb hv
        rw [smartFindGo] at h
        simp only [hv, Bool.not_true, Bool.false_or, if_neg, Bool.false_eq_true,
          if_false] at h
        exact ih h

/-- C8: with visibility filtering enabled (the default), `smartFind` never
returns an element failing the `isVisible` predicate, whichever of the
eight strategies produced the candidate: every candidate passes the
`(!visible || isVisible(element))` gate before being returned. -/
theorem smartFind_visibility_gate (selector : String) (doc : DomDoc) (el : Elem)
    (h : smartFind selector true doc = some el) : isVisible el = true := by
  exact smartFindGo_visible _ el h

/-- Witness for C8: on a one-element document the resolver returns the
visible "submit" element, which indeed satisfies the visibility
predicate. -/
theorem smartFind_visibility_gate_witness :
    isVisible
      { tagName := "BUTTON", hasOffsetParent := true, display := "block",
        visibility := "visible", opacity := "1", rectWidth := 10, rectHeight := 10,
        textContent := "submit", textCandidate := true } = true := by
  exact smartFind_visibility_gate "submit"
    { elements :=
        [{ tagName := "BUTTON", hasOffsetParent := true, display := "block",
           visibility := "visible", opacity := "1", rectWidth := 10, rectHeight := 10,
           textContent := "submit", textCandidate := true }]
      cssQuery := fun _ => none }
    { tagName := "BUTTON", hasOffsetParent := true, display := "block",
      visibility := "visible", opacity := "1", rectWidth := 10, rectHeight := 10,
      textContent := "submit", textCandidate := true }
    (by rfl)

/-- C7: the fuzzy text-match score computed by `calculateMatchScore` equals
the specification's formula on every pair of strings (exact 100;
target-contains-search `80 + (searchLen/targetLen)*20`;
search-contains-target `60 + (targetLen/searchLen)*20`; otherwise the
overlapping-word fraction times 50), and among the fuzzy candidates of
`findByText` the returned element is an eligible candidate whose score is
greatest. -/
theorem calculateMatchScore_formula_and_highest_wins :
    (∀ search target, calculateMatchScore search target = claimMatchScore search target)
    ∧ (∀ (doc : List Elem) (text : String) (visible : Bool) (m : Elem),
        findByTextFuzzy text visible doc = some m →
        (m ∈ textSearchPool doc ∧ fuzzyEligible (jsNormalize text) visible m = true)
        ∧ ∀ el ∈ textSearchPool doc, fuzzyEligible (jsNormalize text) visible el = true →
            calculateMatchScore (jsNormalize text) (jsNormalize el.textContent)
              ≤ calculateMatchScore (jsNormalize text) (jsNormalize m.textContent)) := by
  constructor
  · intro search target
    by_cases h : search = target
    · simp [calculateMatchScore, claimMatchScore, h]
    · simp [calculateMatchScore, claimMatchScore, h]
  · intro doc text visible m h
    obtain ⟨mm, hmm, hme⟩ : ∃ mm, findByTextGo (jsNormalize text) visible
        (textSearchPool doc) none = some mm ∧ mm.element = m := by
      unfold findByTextFuzzy at h
      cases hgo : findByTextGo (jsNormalize text) visible (textSearchPool doc) none with
      | none => rw [hgo] at h; cases h
      | some mm => rw [hgo] at h; cases h; exact ⟨mm, rfl, rfl⟩
    obtain ⟨h1, h2, _⟩ := findByTextGo_best (jsNormalize text) visible _ none mm hmm
    rcases h1 with h1 | ⟨hmem, helig, hscore⟩
    · cases h1
    · subst hme
      refine ⟨⟨hmem, helig⟩, ?_⟩
      intro el hel helig2
      have := h2 el hel helig2
      rw [hscore] at this
      exact this

/-- Witness for C7: at concrete strings the code score equals the claimed
formula, and over a pool with two exact-match candidates the element the
fuzzy search returns scores at least as high as the other candidate. -/
theorem calculateMatchScore_formula_and_highest_wins_witness :
    calculateMatchScore "submit" "submit form" = claimMatchScore "submit" "submit form"
    ∧ calculateMatchScore (jsNormalize "submit") (jsNormalize "submit")
        ≤ calculateMatchScore (jsNormalize "submit") (jsNormalize "submit") := by
  constructor
  · exact calculateMatchScore_formula_and_highest_wins.1 "submit" "submit form"
  · have h := calculateMatchScore_formula_and_highest_wins.2
      [{ tagName := "BUTTON", hasOffsetParent := true, display := "block",
         visibility := "visible", opacity := "1", rectWidth := 10, rectHeight := 10,
         textContent := "submit", textCandidate := true },
       { tagName := "A", hasOffsetParent := true, display := "block",
         visibility := "visible", opacity := "1", rectWidth := 10, rectHeight := 10,
         textContent := "submit", textCandidate := true }]
      "submit" true
      { tagName := "BUTTON", hasOffsetParent := true, display := "block",
        visibility := "visible", opacity := "1", rectWidth := 10, rectHeight := 10,
        textContent := "submit", textCandidate := true }
      (by rfl)
    have h2 := h.2
      { tagName := "A", hasOffsetParent := true, display := "block",
        visibility := "visible", opacity := "1", rectWidth := 10, rectHeight := 10,
        textContent := "submit", textCandidate := true }
      (by decide) (by rfl)
    exact h2

/-- JavaScript `x || d` on an optional string: `undefined` and the empty
string both fall back to the default. -/
def jsOrString (x : Option String) (d : String) : String :=
  match x with
  | none => d
  | some v => if v = "" then d else v

/-- `executeClick` from the action executor (`src/offscreen.ts` bundle):
resolve `text || selector` with `smartFind`; if that fails, fall back to
`waitForElement(searchTerm, 3000)`, whose eventual resolution over the
mutating document is supplied as `waited`; with no element the result is
`{success:false, error:\u0060Element not found: "${searchTerm}"\u0060}`, else the
click is performed and `{success:true}` returned. -/
def executeClick (selector : String) (text : Option String) (doc : DomDoc)
    (waited : Option Elem) : ActionResult :=
  let searchTerm := jsOrString text selector
  let element :=
    match smartFind searchTerm true doc with
    | some e => some e
    | none => waited
  match element with
  | none =>
    { success := false, error := some ("Element not found: \x22" ++ searchTerm ++ "\x22") }
  | some _ => { success := true }

/-- The document with no matching element: nothing in it, and the platform
selector query finds nothing. -/
def emptyDoc : DomDoc :=
  { elements := [], cssQuery := fun _ => none }

/-- C5 counterexample: when no element matches "Submit" (neither
immediately nor within the wait), the executor's error string wraps the
target in double quotes — `Element not found: "Submit"` — so the result is
not exactly `{success:false, error:"Element not found: Submit"}` as
claimed. -/
theorem executeClick_error_string_quoted :
    executeClick "Submit" none emptyDoc none
      = { success := false, error := some "Element not found: \x22Submit\x22" }
    ∧ some "Element not found: \x22Submit\x22" ≠ some "Element not found: Submit" := by
  constructor
  · rfl
  · decide

/-- C5 amended: when a click targets a string no element matches (resolver
and 3000 ms wait both fail), the executor returns exactly
`{success:false, error:\u0060Element not found: "<target>"\u0060}` (the target is
quoted inside the message), and the run is not aborted: the loop records
the failed result on the step and proceeds to the next decision round. -/
theorem executeClick_failure_recorded_run_continues :
    (∀ (selector : String) (doc : DomDoc),
        smartFind selector true doc = none →
        executeClick selector none doc none
          = { success := false,
              error := some ("Element not found: \x22" ++ selector ++ "\x22") })
    ∧ (∀ (ev : IterEvent) (rest : List IterEvent) (steps : List AgentStep)
         (maxSteps : Nat) (thought sel : String) (txt : Option String),
        ev.abortFlag = false → steps.length < maxSteps →
        ev.outcome = StepOutcome.decision thought (BrowserAction.click sel txt) →
        runAgentLoop maxSteps (ev :: rest) steps
          = runAgentLoop maxSteps rest
              (steps ++ [{ id := ev.stepId, thought := thought,
                           action := BrowserAction.click sel txt,
                           result := some ev.execResult, timestamp := ev.timestamp }])) := by
  constructor
  · intro selector doc h
    simp only [executeClick, jsOrString, h]
  · intro ev rest steps maxSteps thought sel txt ha hlt ho
    simp [runAgentLoop, ha, Nat.not_le.mpr hlt, ho]

/-- Witness for C5 (amended): on the empty document the click on "Submit"
fails with the quoted message, and a loop iteration carrying that failed
result records the step and continues to the next round. -/
theorem executeClick_failure_recorded_run_continues_witness :
    executeClick "Submit" none emptyDoc none
      = { success := false, error := some "Element not found: \x22Submit\x22" }
    ∧ runAgentLoop 20
        [{ abortFlag := false, now := 0, stepId := "s1", timestamp := 0,
           outcome := StepOutcome.decision "th" (BrowserAction.click "Submit" none),
           execResult := { success := false,
                           error := some "Element not found: \x22Submit\x22" } }] []
      = LoopResult.running
          [{ id := "s1", thought := "th", action := BrowserAction.click "Submit" none,
             result := some { success := false,
                              error := some "Element not found: \x22Submit\x22" },
             timestamp := 0 }] := by
  constructor
  · exact executeClick_failure_recorded_run_continues.1 "Submit" emptyDoc (by rfl)
  · have h := executeClick_failure_recorded_run_continues.2
      { abortFlag := false, now := 0, stepId := "s1", timestamp := 0,
        outcome := StepOutcome.decision "th" (BrowserAction.click "Submit" none),
        execResult := { success := false,
                        error := some "Element not found: \x22Submit\x22" } }
      [] [] 20 "th" "Submit" none rfl (by decide) rfl
    simpa using h

/-- The backtick character (fence marker). -/
def backtickChar : Char := Char.ofNat 96

/-- Opening curly brace. -/
def openBrace : Char := Char.ofNat 123

/-- Closing curly brace. -/
def closeBrace : Char := Char.ofNat 125

/-- JSON whitespace (the four characters `JSON.parse` skips). -/
def jsonWs (c : Char) : Bool :=
  c == ' ' || c == Char.ofNat 9 || c == Char.ofNat 10 || c == Char.ofNat 13

/-- Value of a decimal digit run. -/
def digitsToNat (ds : List Char) : Nat :=
  ds.foldl (fun n c => n * 10 + (c.toNat - 48)) 0

/-- Hexadecimal digit value, if any. -/
def hexVal (c : Char) : Option Nat :=
  if c.toNat ≥ 48 && c.toNat ≤ 57 then some (c.toNat - 48)
  else if c.toNat ≥ 97 && c.toNat ≤ 102 then some (c.toNat - 87)
  else if c.toNat ≥ 65 && c.toNat ≤ 70 then some (c.toNat - 55)
  else none

/-- JSON string body scanner (after the opening quote): handles the escape
sequences of `JSON.parse` and rejects raw control characters. -/
def parseStringBody : List Char → List Char → Except String (String × List Char)
  | [], _ => Except.error "unterminated string"
  | c :: rest, acc =>
    if c == '"' then Except.ok (String.mk acc.reverse, rest)
    else if c == Char.ofNat 92 then
      match rest with
      | [] => Except.error "unterminated escape"
      | e :: r2 =>
        if e == '"' then parseStringBody r2 ('"' :: acc)
        else if e == Char.ofNat 92 then parseStringBody r2 (Char.ofNat 92 :: acc)
        else if e == '/' then parseStringBody r2 ('/' :: acc)
        else if e == 'b' then parseStringBody r2 (Char.ofNat 8 :: acc)
        else if e == 'f' then parseStringBody r2 (Char.ofNat 12 :: acc)
        else if e == 'n' then parseStringBody r2 (Char.ofNat 10 :: acc)
        else if e == 'r' then parseStringBody r2 (Char.ofNat 13 :: acc)
        else if e == 't' then parseStringBody r2 (Char.ofNat 9 :: acc)
        else if e == 'u' then
          match r2 with
          | h1 :: h2 :: h3 :: h4 :: r3 =>
            match hexVal h1, hexVal h2, hexVal h3, hexVal h4 with
            | some a, some b, some c2, some d =>
              parseStringBody r3 (Char.ofNat (((a * 16 + b) * 16 + c2) * 16 + d) :: acc)
            | _, _, _, _ => Except.error "bad unicode escape"
          | _ => Except.error "bad unicode escape"
        else Except.error "bad escape"
    else if c.toNat < 32 then Except.error "control character in string"
    else parseStringBody rest (c :: acc)

/-- Optional exponent part of a JSON number. -/
def parseExponent (cs : List Char) : Except String (Int × List Char) :=
  match cs with
  | [] => Except.ok (0, [])
  | c :: rest =>
    if c == 'e' || c == 'E' then
      let signed : Int × List Char :=
        match rest with
        | '+' :: r => (1, r)
        | '-' :: r => (-1, r)
        | r => (1, r)
      let ds := signed.2.takeWhile Char.isDigit
      if ds.isEmpty then Except.error "bad exponent"
      else Except.ok (signed.1 * (digitsToNat ds : Int), signed.2.dropWhile Char.isDigit)
    else Except.ok (0, cs)

/-- Optional fraction part of a JSON number. -/
def parseFraction (cs : List Char) : Except String (List Char × List Char) :=
  match cs with
  | '.' :: rest =>
    let ds := rest.takeWhile Char.isDigit
    if ds.isEmpty then Except.error "bad fraction"
    else Except.ok (ds, rest.dropWhile Char.isDigit)
  | _ => Except.ok ([], cs)

/-- Numeric value from sign, integer digits, fraction digits and
exponent. -/
def ratOfParts (neg : Bool) (ids fds : List Char) (ex : Int) : ℚ :=
  let mant : ℚ :=
    ((digitsToNat ids * 10 ^ fds.length + digitsToNat fds : Nat) : ℚ)
      / ((10 ^ fds.length : Nat) : ℚ)
  (if neg then -mant else mant) * (10 : ℚ) ^ ex

/-- JSON number parser (strict grammar: optional minus, no leading zeros,
optional fraction and exponent). -/
def parseNumberFrom (cs : List Char) : Except String (Json × List Char) :=
  let signed : Bool × List Char :=
    match cs with
    | '-' :: r => (true, r)
    | _ => (false, cs)
  let ids := signed.2.takeWhile Char.isDigit
  if ids.isEmpty then Except.error "invalid number"
  else if decide (1 < ids.length) && (ids.head? == some '0') then
    Except.error "leading zero"
  else
    match parseFraction (signed.2.dropWhile Char.isDigit) with
    | Except.error e => Except.error e
    | Except.ok (fds, cs2) =>
      match parseExponent cs2 with
      | Except.error e => Except.error e
      | Except.ok (ex, cs3) =>
        Except.ok (Json.num (ratOfParts signed.1 ids fds ex), cs3)

mutual

/-- Recursive-descent JSON value parser with a fuel bound (every recursive
call follows the consumption of at least one character, so fuel of twice
the input length never runs out on real input). -/
def parseValue : Nat → List Char → Except String (Json × List Char)
  | 0, _ => Except.error "out of fuel"
  | fuel + 1, cs0 =>
    let cs := cs0.dropWhile jsonWs
    match cs with
    | [] => Except.error "unexpected end of input"
    | c :: rest =>
      if c == openBrace then parseMembers fuel rest []
      else if c == '[' then parseElements fuel rest []
      else if c == '"' then
        match parseStringBody rest [] with
        | Except.error e => Except.error e
        | Except.ok (s, r) => Except.ok (Json.str s, r)
      else if listStartsWith "true".data cs then Except.ok (Json.bool true, cs.drop 4)
      else if listStartsWith "false".data cs then Except.ok (Json.bool false, cs.drop 5)
      else if listStartsWith "null".data cs then Except.ok (Json.null, cs.drop 4)
      else if c == '-' || c.isDigit then parseNumberFrom cs
      else Except.error "unexpected character"

/-- Object members parser (after the opening brace). -/
def parseMembers : Nat → List Char → List (String × Json) →
    Except String (Json × List Char)
  | 0, _, _ => Except.error "out of fuel"
  | fuel + 1, cs0, acc =>
    let cs := cs0.dropWhile jsonWs
    match cs with
    | [] => Except.error "unterminated object"
    | c :: rest =>
      if c == closeBrace && acc.isEmpty then Except.ok (Json.obj acc.reverse, rest)
      else if c == '"' then
        match parseStringBody rest [] with
        | Except.error e => Except.error e
        | Except.ok (key, r1) =>
          let r2 := r1.dropWhile jsonWs
          match r2 with
          | ':' :: r3 =>
            match parseValue fuel r3 with
            | Except.error e => Except.error e
            | Except.ok (v, r4) =>
              let r5 := r4.dropWhile jsonWs
              match r5 with
              | ',' :: r6 => parseMembers fuel r6 ((key, v) :: acc)
              | d :: r6 =>
                if d == closeBrace then Except.ok (Json.obj ((key, v) :: acc).reverse, r6)
                else Except.error "expected comma or closing brace"
              | [] => Except.error "unterminated object"
          | _ => Except.error "expected colon"
      else Except.error "expected string key"

/-- Array elements parser (after the opening bracket). -/
def parseElements : Nat → List Char → List Json → Except String (Json × List Char)
  | 0, _, _ => Except.error "out of fuel"
  | fuel + 1, cs0, acc =>
    let cs := cs0.dropWhile jsonWs
    match cs with
    | [] => Except.error "unterminated array"
    | c :: rest =>
      if c == ']' && acc.isEmpty then Except.ok (Json.arr [], rest)
      else
        match parseValue fuel cs with
        | Except.error e => Except.error e
        | Except.ok (v, r1) =>
          let r2 := r1.dropWhile jsonWs
          match r2 with
          | ',' :: r3 => parseElements fuel r3 (v :: acc)
          | ']' :: r3 => Except.ok (Json.arr (v :: acc).reverse, r3)
          | _ => Except.error "expected comma or closing bracket"

end

/-- `JSON.parse`: a single value with only whitespace around it. -/
def jsonParse (s : String) : Except String Json :=
  match parseValue (s.data.length * 2 + 2) s.data with
  | Except.error e => Except.error e
  | Except.ok (v, rest) =>
    if (rest.dropWhile jsonWs).isEmpty then Except.ok v
    else Except.error "unexpected trailing characters"

/-- Index of the first occurrence of a character. -/
def idxOfChar (target : Char) : List Char → Option Nat
  | [] => none
  | c :: rest =>
    if c == target then some 0
    else (idxOfChar target rest).map (fun k => k + 1)

/-- Index of the last occurrence of a character. -/
def lastIdxOfChar (target : Char) (cs : List Char) : Option Nat :=
  (idxOfChar target cs.reverse).map (fun k => cs.length - 1 - k)

/-- Index of the first occurrence of the fence marker three-backtick run. -/
def idxOfFence : List Char → Option Nat
  | [] => none
  | c :: rest =>
    if listStartsWith "```".data (c :: rest) then some 0
    else (idxOfFence rest).map (fun k => k + 1)

/-- Does the fenced-block regex `/\u0060\u0060\u0060(?:json)?\s*([\s\S]*?)\u0060\u0060\u0060/`
match at this position?  If so, return the captured group.  The optional
`json` tag is consumed greedily (backtracking cannot create a closing
fence, so greedy is faithful), whitespace after it maximally, and the lazy
group runs to the first following fence marker. -/
def fenceMatchAt (cs : List Char) : Option (List Char) :=
  if listStartsWith "```".data cs then
    let r1 := cs.drop 3
    let r2 := if listStartsWith "json".data r1 then r1.drop 4 else r1
    let r3 := r2.dropWhile jsonWs
    match idxOfFence r3 with
    | some i => some (r3.take i)
    | none => none
  else none

/-- Leftmost match of the fenced-block regex over the whole reply
(`response.match(...)` semantics): try each start position in order. -/
def findFirstFence : List Char → Option (List Char)
  | [] => none
  | c :: rest =>
    match fenceMatchAt (c :: rest) with
    | some g => some g
    | none => findFirstFence rest

/-- The `/\x7b[\s\S]*\x7d/` match: from the first opening brace to the last
closing brace, when the latter follows the former. -/
def braceSpan (cs : List Char) : Option (List Char) :=
  match idxOfChar openBrace cs with
  | none => none
  | some i =>
    match lastIdxOfChar closeBrace cs with
    | none => none
    | some j => if i < j then some ((cs.drop i).take (j - i + 1)) else none

/-- Object-field lookup with JavaScript semantics (later duplicate keys
shadow earlier ones); `none` is `undefined`. -/
def jsGetField (j : Json) (k : String) : Option Json :=
  match j with
  | Json.obj fields => fields.foldl (fun acc f => if f.1 == k then some f.2 else acc) none
  | _ => none

/-- JavaScript truthiness of a possibly-undefined JSON value. -/
def jsTruthy : Option Json → Bool
  | none => false
  | some Json.null => false
  | some (Json.bool b) => b
  | some (Json.num q) => !(q == 0)
  | some (Json.str str) => !(str == "")
  | some (Json.arr _) => true
  | some (Json.obj _) => true

/-- Is the value strictly `=== true`? -/
def isJsonTrue : Option Json → Bool
  | some (Json.bool true) => true
  | _ => false

/-- `parsed.action.type === 'done'`: property access yields `undefined` on
non-objects. -/
def actionTypeIsDone (a : Option Json) : Bool :=
  match a with
  | some (Json.obj fields) =>
    match jsGetField (Json.obj fields) "type" with
    | some (Json.str t) => t == "done"
    | _ => false
  | _ => false

/-- The structured decision `parseAgentResponse` returns (`AgentResponse`
with the runtime-unchecked fields kept as JSON values). -/
structure AgentResponseJson where
  thought : Json
  action : Json
  done : Bool

/-- `parseAgentResponse` from `src/backend/agentService.ts`: trim; if a
fenced code block matches, take its body; take the first-brace-to-last-
brace span; `JSON.parse`; fail on a falsy `thought` or `action`; `done` is
true when set strictly `true` or when `action.type` is `"done"`. -/
def parseAgentResponse (response : String) : Option AgentResponseJson :=
  let jsonStr0 :=
    match findFirstFence response.data with
    | some g => jsTrim (String.mk g)
    | none => jsTrim response
  let jsonStr1 :=
    match braceSpan jsonStr0.data with
    | some span => String.mk span
    | none => jsonStr0
  match jsonParse jsonStr1 with
  | Except.error _ => none
  | Except.ok parsed =>
    if !(jsTruthy (jsGetField parsed "thought")) || !(jsTruthy (jsGetField parsed "action"))
    then none
    else
      some { thought := (jsGetField parsed "thought").getD Json.null
             action := (jsGetField parsed "action").getD Json.null
             done := isJsonTrue (jsGetField parsed "done")
                 || actionTypeIsDone (jsGetField parsed "action") }

/-- What `parseAgentResponse` makes of a successfully located and parsed
object: `null` when `thought` or `action` is missing or falsy, else the
decision whose `done` flag is true exactly when the reply set `done` to
`true` or `action.type` is `"done"`. -/
def expectedDecision (parsed : Json) : Option AgentResponseJson :=
  if !(jsTruthy (jsGetField parsed "thought")) || !(jsTruthy (jsGetField parsed "action"))
  then none
  else
    some { thought := (jsGetField parsed "thought").getD Json.null
           action := (jsGetField parsed "action").getD Json.null
           done := isJsonTrue (jsGetField parsed "done")
               || actionTypeIsDone (jsGetField parsed "action") }

/-- Prose that cannot disturb the extraction: no braces and no fence
marker characters. -/
def proseSafe (s : String) : Bool :=
  s.data.all (fun c => !(c == openBrace || c == closeBrace || c == backtickChar))

lemma charBeq_comm (a b : Char) : (a == b) = (b == a) := by
  by_cases h : a = b
  · subst h; rfl
  · rw [beq_eq_false_iff_ne.mpr h, beq_eq_false_iff_ne.mpr (Ne.symm h)]

lemma proseSafe_spec (s : String) (h : proseSafe s = true) :
    ∀ c ∈ s.data, (c == openBrace) = false ∧ (c == closeBrace) = false
      ∧ (c == backtickChar) = false := by
  intro c hc
  have hcp := List.all_eq_true.mp h c hc
  simp only [Bool.not_eq_true', Bool.or_eq_false_iff] at hcp
  exact ⟨hcp.1.1, hcp.1.2, hcp.2⟩

lemma listStartsWith_fence_false (c : Char) (rest : List Char)
    (hc : (c == backtickChar) = false) :
    listStartsWith "```".data (c :: rest) = false := by
  have hdata : "```".data = [backtickChar, backtickChar, backtickChar] := rfl
  rw [hdata]
  simp only [listStartsWith, Bool.and_eq_false_iff]
  left
  rw [charBeq_comm]
  exact hc

lemma findFirstFence_none (cs : List Char)
    (h : ∀ c ∈ cs, (c == backtickChar) = false) : findFirstFence cs = none := by
  induction cs with
  | nil => rfl
  | cons c rest ih =>
    have hc : (c == backtickChar) = false := h c (List.mem_cons_self _ _)
    have hrest : ∀ d ∈ rest, (d == backtickChar) = false :=
      fun d hd => h d (List.mem_cons_of_mem _ hd)
    rw [findFirstFence]
    simp only [fenceMatchAt, listStartsWith_fence_false c rest hc, Bool.false_eq_true,
      if_false]
    exact ih hrest

lemma dropWhile_append_head_not (pr : Char → Bool) (xs ys : List Char)
    (hy : ∀ c l, ys = c :: l → pr c = false) :
    (xs ++ ys).dropWhile pr = xs.dropWhile pr ++ ys := by
  induction xs with
  | nil =>
    simp only [List.nil_append, List.dropWhile_nil]
    cases ys with
    | nil => rfl
    | cons c l => simp [List.dropWhile_cons, hy c l rfl]
  | cons x xs ih =>
    cases hx : pr x
    · simp [List.dropWhile_cons, hx]
    · simp [List.dropWhile_cons, hx, ih]

lemma idxOfChar_clean_first (t : Char) :
    ∀ (a : List Char), (∀ c ∈ a, (c == t) = false) →
      ∀ rest, idxOfChar t (a ++ (t :: rest)) = some a.length := by
  intro a
  induction a with
  | nil =>
    intro _ rest
    simp [idxOfChar]
  | cons c as ih =>
    intro h rest
    have hc : (c == t) = false := h c (List.mem_cons_self _ _)
    rw [List.cons_append, idxOfChar]
    simp only [hc, Bool.false_eq_true, if_false]
    rw [ih (fun d hd => h d (List.mem_cons_of_mem _ hd)) rest]
    rfl

lemma braceSpan_concat (a m b : List Char)
    (ha : ∀ c ∈ a, (c == openBrace) = false ∧ (c == closeBrace) = false)
    (hb : ∀ c ∈ b, (c == openBrace) = false ∧ (c == closeBrace) = false)
    (h1 : m.head? = some openBrace) (h2 : m.getLast? = some closeBrace) :
    braceSpan (a ++ (m ++ b)) = some m := by
  obtain ⟨mt, hm⟩ : ∃ mt, m = openBrace :: mt := by
    cases hmc : m with
    | nil => rw [hmc] at h1; cases h1
    | cons c t =>
      rw [hmc] at h1
      simp only [List.head?_cons, Option.some.injEq] at h1
      exact ⟨t, by rw [h1]⟩
  obtain ⟨rm, hrev⟩ : ∃ rm, m.reverse = closeBrace :: rm := by
    have : m.reverse.head? = some closeBrace := by rw [List.head?_reverse]; exact h2
    cases hmc : m.reverse with
    | nil => rw [hmc] at this; cases this
    | cons c t =>
      rw [hmc] at this
      simp only [List.head?_cons, Option.some.injEq] at this
      exact ⟨t, by rw [this]⟩
  have hmlen : 2 ≤ m.length := by
    rcases mt.eq_nil_or_concat with rfl | ⟨_, _, _⟩
    · exfalso
      rw [hm] at h2
      simp only [List.getLast?_singleton, Option.some.injEq] at h2
      have : openBrace ≠ closeBrace := by decide
      exact this h2
    · rw [hm]
      simp only [List.length_cons]
      have : mt ≠ [] := by
        rename_i x xs hx
        rw [hx]
        simp
      have := List.length_pos.mpr this
      omega
  have hi : idxOfChar openBrace (a ++ (m ++ b)) = some a.length := by
    rw [hm, List.cons_append]
    exact idxOfChar_clean_first openBrace a (fun c hc => (ha c hc).1) _
  have hj : lastIdxOfChar closeBrace (a ++ (m ++ b)) = some (a.length + m.length - 1) := by
    unfold lastIdxOfChar
    have hrevall : (a ++ (m ++ b)).reverse = b.reverse ++ (closeBrace :: (rm ++ a.reverse)) := by
      rw [List.reverse_append, List.reverse_append, hrev]
      simp [List.append_assoc]
    rw [hrevall]
    rw [idxOfChar_clean_first closeBrace b.reverse
      (fun c hc => (hb c (List.mem_reverse.mp hc)).2) _]
    simp only [Option.map, List.length_reverse, Option.some.injEq, List.length_append]
    omega
  unfold braceSpan
  simp only [hi, hj]
  have hlt : a.length < a.length + m.length - 1 := by omega
  rw [if_pos hlt]
  congr 1
  rw [List.drop_left]
  have harith : a.length + m.length - 1 - a.length + 1 = m.length := by omega
  rw [harith, List.take_left]

lemma trim_decomp (p body q : String)
    (hh : body.data.head? = some openBrace)
    (hl : body.data.getLast? = some closeBrace) :
    ∃ a b, (jsTrim (p ++ body ++ q)).data = a ++ (body.data ++ b)
      ∧ (∀ c ∈ a, c ∈ p.data) ∧ (∀ c ∈ b, c ∈ q.data) := by
  obtain ⟨t, hm⟩ : ∃ t, body.data = openBrace :: t := by
    cases hmc : body.data with
    | nil => rw [hmc] at hh; cases hh
    | cons c u =>
      rw [hmc] at hh
      simp only [List.head?_cons, Option.some.injEq] at hh
      exact ⟨u, by rw [hh]⟩
  obtain ⟨rm, hrev⟩ : ∃ rm, body.data.reverse = closeBrace :: rm := by
    have hx : body.data.reverse.head? = some closeBrace := by
      rw [List.head?_reverse]; exact hl
    cases hmc : body.data.reverse with
    | nil => rw [hmc] at hx; cases hx
    | cons c u =>
      rw [hmc] at hx
      simp only [List.head?_cons, Option.some.injEq] at hx
      exact ⟨u, by rw [hx]⟩
  have hdata : (p ++ body ++ q).data = p.data ++ (body.data ++ q.data) := by
    rw [String.data_append, String.data_append, List.append_assoc]
  have hstep1 : (p ++ body ++ q).data.dropWhile Char.isWhitespace
      = p.data.dropWhile Char.isWhitespace ++ (body.data ++ q.data) := by
    rw [hdata]
    refine dropWhile_append_head_not _ _ _ ?_
    intro c l hcl
    rw [hm, List.cons_append] at hcl
    cases hcl
    decide
  have hstep2 : (p.data.dropWhile Char.isWhitespace ++ (body.data ++ q.data)).reverse
      = q.data.reverse ++ (body.data.reverse
          ++ (p.data.dropWhile Char.isWhitespace).reverse) := by
    rw [List.reverse_append, List.reverse_append, List.append_assoc]
  have hstep3 : (q.data.reverse ++ (body.data.reverse
        ++ (p.data.dropWhile Char.isWhitespace).reverse)).dropWhile Char.isWhitespace
      = q.data.reverse.dropWhile Char.isWhitespace
        ++ (body.data.reverse ++ (p.data.dropWhile Char.isWhitespace).reverse) := by
    refine dropWhile_append_head_not _ _ _ ?_
    intro c l hcl
    rw [hrev, List.cons_append] at hcl
    cases hcl
    decide
  refine ⟨p.data.dropWhile Char.isWhitespace,
    (q.data.reverse.dropWhile Char.isWhitespace).reverse, ?_, ?_, ?_⟩
  · show (((p ++ body ++ q).data.dropWhile Char.isWhitespace).reverse.dropWhile
        Char.isWhitespace).reverse = _
    rw [hstep1, hstep2, hstep3]
    rw [List.reverse_append, List.reverse_append, List.reverse_reverse,
      List.reverse_reverse, List.append_assoc]
  · intro c hc
    exact (List.dropWhile_sublist _).subset hc
  · intro c hc
    rw [List.mem_reverse] at hc
    have := (List.dropWhile_sublist _).subset hc
    rwa [List.mem_reverse] at this

lemma idxOfFence_clean (xs : List Char) (hx : ∀ c ∈ xs, (c == backtickChar) = false) :
    idxOfFence (xs ++ "```".data) = some xs.length := by
  induction xs with
  | nil =>
    rfl
  | cons c rest ih =>
    rw [List.cons_append, idxOfFence]
    rw [listStartsWith_fence_false c _ (hx c (List.mem_cons_self _ _))]
    simp only [Bool.false_eq_true, if_false]
    rw [ih (fun d hd => hx d (List.mem_cons_of_mem _ hd))]
    rfl

lemma jsTrim_append_lf (body : String)
    (hh : body.data.head? = some openBrace)
    (hl : body.data.getLast? = some closeBrace) :
    jsTrim (String.mk (body.data ++ [Char.ofNat 10])) = body := by
  obtain ⟨t, hm⟩ : ∃ t, body.data = openBrace :: t := by
    cases hmc : body.data with
    | nil => rw [hmc] at hh; cases hh
    | cons c u =>
      rw [hmc] at hh
      simp only [List.head?_cons, Option.some.injEq] at hh
      exact ⟨u, by rw [hh]⟩
  obtain ⟨rm, hrev⟩ : ∃ rm, body.data.reverse = closeBrace :: rm := by
    have hx : body.data.reverse.head? = some closeBrace := by
      rw [List.head?_reverse]; exact hl
    cases hmc : body.data.reverse with
    | nil => rw [hmc] at hx; cases hx
    | cons c u =>
      rw [hmc] at hx
      simp only [List.head?_cons, Option.some.injEq] at hx
      exact ⟨u, by rw [hx]⟩
  have h1 : (body.data ++ [Char.ofNat 10]).dropWhile Char.isWhitespace
      = body.data ++ [Char.ofNat 10] := by
    rw [hm, List.cons_append, List.dropWhile_cons]
    have hob : Char.isWhitespace openBrace = false := by decide
    simp [hob]
  show String.mk (((String.mk (body.data ++ [Char.ofNat 10])).data.dropWhile
      Char.isWhitespace).reverse.dropWhile Char.isWhitespace).reverse = body
  have hdmk : (String.mk (body.data ++ [Char.ofNat 10])).data
      = body.data ++ [Char.ofNat 10] := rfl
  rw [hdmk, h1]
  have h2 : (body.data ++ [Char.ofNat 10]).reverse = Char.ofNat 10 :: body.data.reverse := by
    simp
  rw [h2, List.dropWhile_cons]
  have hws : Char.isWhitespace (Char.ofNat 10) = true := by decide
  rw [hws]
  simp only [if_true]
  rw [hrev, List.dropWhile_cons]
  have hnws : Char.isWhitespace closeBrace = false := by decide
  rw [hnws]
  simp only [Bool.false_eq_true, if_false]
  rw [← hrev, List.reverse_reverse]

lemma findFirstFence_fenced (body : String)
    (hh : body.data.head? = some openBrace)
    (hbt : ∀ c ∈ body.data, (c == backtickChar) = false) :
    findFirstFence ("```json\n" ++ body ++ "\n```").data
      = some (body.data ++ [Char.ofNat 10]) := by
  obtain ⟨t, hm⟩ : ∃ t, body.data = openBrace :: t := by
    cases hmc : body.data with
    | nil => rw [hmc] at hh; cases hh
    | cons c u =>
      rw [hmc] at hh
      simp only [List.head?_cons, Option.some.injEq] at hh
      exact ⟨u, by rw [hh]⟩
  have hdata : ("```json\n" ++ body ++ "\n```").data
      = backtickChar :: backtickChar :: backtickChar :: 'j' :: 's' :: 'o' :: 'n'
          :: Char.ofNat 10
          :: (body.data ++ (Char.ofNat 10 :: backtickChar :: backtickChar
              :: backtickChar :: [])) := by
    rw [String.data_append, String.data_append]
    rfl
  rw [hdata, findFirstFence]
  have hstart : listStartsWith "```".data
      (backtickChar :: backtickChar :: backtickChar :: 'j' :: 's' :: 'o' :: 'n'
        :: Char.ofNat 10
        :: (body.data ++ (Char.ofNat 10 :: backtickChar :: backtickChar
            :: backtickChar :: []))) = true := by
    rw [show "```".data = [backtickChar, backtickChar, backtickChar] from rfl]
    simp [listStartsWith]
  have hjson : listStartsWith "json".data
      ('j' :: 's' :: 'o' :: 'n' :: Char.ofNat 10
        :: (body.data ++ (Char.ofNat 10 :: backtickChar :: backtickChar
            :: backtickChar :: []))) = true := by
    simp [listStartsWith]
  have hdrop3 : (backtickChar :: backtickChar :: backtickChar :: 'j' :: 's' :: 'o' :: 'n'
      :: Char.ofNat 10
      :: (body.data ++ (Char.ofNat 10 :: backtickChar :: backtickChar
          :: backtickChar :: []))).drop 3
      = 'j' :: 's' :: 'o' :: 'n' :: Char.ofNat 10
        :: (body.data ++ (Char.ofNat 10 :: backtickChar :: backtickChar
            :: backtickChar :: [])) := rfl
  have hws : (Char.ofNat 10
      :: (body.data ++ (Char.ofNat 10 :: backtickChar :: backtickChar
          :: backtickChar :: []))).dropWhile jsonWs
      = body.data ++ (Char.ofNat 10 :: backtickChar :: backtickChar
          :: backtickChar :: []) := by
    rw [List.dropWhile_cons]
    have h10 : jsonWs (Char.ofNat 10) = true := by decide
    rw [h10]
    simp only [if_true]
    rw [hm, List.cons_append, List.dropWhile_cons]
    have hob : jsonWs openBrace = false := by decide
    rw [hob]
    simp
  have hidx : idxOfFence (body.data ++ (Char.ofNat 10 :: backtickChar :: backtickChar
      :: backtickChar :: [])) = some (body.data.length + 1) := by
    have hre : body.data ++ (Char.ofNat 10 :: backtickChar :: backtickChar
        :: backtickChar :: []) = (body.data ++ [Char.ofNat 10]) ++ "```".data := by
      rw [List.append_assoc]
      rfl
    rw [hre]
    have hclean : ∀ c ∈ body.data ++ [Char.ofNat 10], (c == backtickChar) = false := by
      intro c hc
      rcases List.mem_append.mp hc with h | h
      · exact hbt c h
      · simp only [List.mem_singleton] at h
        rw [h]
        decide
    rw [idxOfFence_clean _ hclean]
    simp
  have htake : (body.data ++ (Char.ofNat 10 :: backtickChar :: backtickChar
      :: backtickChar :: [])).take (body.data.length + 1)
      = body.data ++ [Char.ofNat 10] := by
    have hre : body.data ++ (Char.ofNat 10 :: backtickChar :: backtickChar
        :: backtickChar :: []) = (body.data ++ [Char.ofNat 10]) ++ "```".data := by
      rw [List.append_assoc]
      rfl
    have hlen : (body.data ++ [Char.ofNat 10]).length = body.data.length + 1 := by simp
    rw [hre, ← hlen, List.take_left]
  rw [show fenceMatchAt (backtickChar :: backtickChar :: backtickChar :: 'j' :: 's' :: 'o'
      :: 'n' :: Char.ofNat 10
      :: (body.data ++ (Char.ofNat 10 :: backtickChar :: backtickChar
          :: backtickChar :: [])))
      = some (body.data ++ [Char.ofNat 10]) from by
    unfold fenceMatchAt
    rw [hstart]
    simp only [if_true]
    rw [hdrop3]
    simp only [hjson, if_true, List.drop_succ_cons, List.drop_zero]
    rw [hws, hidx]
    simp only [htake]]

/-- C4 counterexample: the parser does not locate the first well-formed
`\x7b...\x7d` object — it takes the span from the first `\x7b` to the LAST
`\x7d`.  This reply consists of a well-formed decision object (with truthy
`thought` and `action`) followed by one stray closing brace; the claim
says the parser finds the object, but `parseAgentResponse` returns
`null` because the greedy span fails `JSON.parse`. -/
theorem parseAgentResponse_not_first_object :
    parseAgentResponse
        "\x7b\"thought\":\"t\",\"action\":\x7b\"type\":\"click\",\"selector\":\"x\"\x7d\x7d \x7d"
      = none
    ∧ (match jsonParse
          "\x7b\"thought\":\"t\",\"action\":\x7b\"type\":\"click\",\"selector\":\"x\"\x7d\x7d" with
       | Except.ok parsed =>
          jsTruthy (jsGetField parsed "thought") && jsTruthy (jsGetField parsed "action")
       | Except.error _ => false) = true := by
  exact ⟨rfl, rfl⟩

/-- C4 amended: `parseAgentResponse` extracts the maximal brace span (first
`\x7b` to last `\x7d`) of the reply — of the fenced block's body when a fenced
code block is present — rather than the first well-formed object; when the
reply is a single JSON object surrounded by brace-free, fence-free prose,
or wrapped in a fenced code block, that span is exactly the object, and
the outcome is: `null` when `thought` or `action` is missing or falsy,
else the decision whose `done` flag is true if and only if the reply set
`done` to `true` or `action.type` is `"done"`. -/
theorem parseAgentResponse_extraction (p q body : String) (parsed : Json)
    (hp : proseSafe p = true) (hq : proseSafe q = true)
    (hb1 : body.data.head? = some openBrace)
    (hb2 : body.data.getLast? = some closeBrace)
    (hbt : ∀ c ∈ body.data, (c == backtickChar) = false)
    (hparse : jsonParse body = Except.ok parsed) :
    parseAgentResponse (p ++ body ++ q) = expectedDecision parsed
    ∧ parseAgentResponse ("```json\n" ++ body ++ "\n```") = expectedDecision parsed := by
  constructor
  · have hdata : (p ++ body ++ q).data = p.data ++ (body.data ++ q.data) := by
      rw [String.data_append, String.data_append, List.append_assoc]
    have hfence : findFirstFence (p ++ body ++ q).data = none := by
      rw [hdata]
      apply findFirstFence_none
      intro c hc
      rcases List.mem_append.mp hc with h | h
      · exact (proseSafe_spec p hp c h).2.2
      · rcases List.mem_append.mp h with h | h
        · exact hbt c h
        · exact (proseSafe_spec q hq c h).2.2
    obtain ⟨a, b, hab, hamem, hbmem⟩ := trim_decomp p body q hb1 hb2
    have hspan : braceSpan (jsTrim (p ++ body ++ q)).data = some body.data := by
      rw [hab]
      exact braceSpan_concat a body.data b
        (fun c hc => ⟨(proseSafe_spec p hp c (hamem c hc)).1,
          (proseSafe_spec p hp c (hamem c hc)).2.1⟩)
        (fun c hc => ⟨(proseSafe_spec q hq c (hbmem c hc)).1,
          (proseSafe_spec q hq c (hbmem c hc)).2.1⟩)
        hb1 hb2
    unfold parseAgentResponse
    rw [hfence]
    simp only [hspan]
    rw [show String.mk body.data = body from rfl, hparse]
    rfl
  · have hfence := findFirstFence_fenced body hb1 hbt
    unfold parseAgentResponse
    rw [hfence]
    simp only []
    rw [jsTrim_append_lf body hb1 hb2]
    have hspan : braceSpan body.data = some body.data := by
      have := braceSpan_concat [] body.data []
        (fun c hc => absurd hc (List.not_mem_nil c))
        (fun c hc => absurd hc (List.not_mem_nil c)) hb1 hb2
      simpa using this
    simp only [hspan]
    rw [show String.mk body.data = body from rfl, hparse]
    rfl

/-- Witness for C4 (amended): a prose-wrapped reply whose single object
carries a done action parses to the decision with `done = true`. -/
theorem parseAgentResponse_extraction_witness :
    parseAgentResponse
        ("Here is the plan: "
          ++ "\x7b\"thought\":\"t\",\"action\":\x7b\"type\":\"done\",\"summary\":\"s\"\x7d,\"done\":true\x7d"
          ++ " all set.")
      = some { thought := Json.str "t",
               action := Json.obj [("type", Json.str "done"), ("summary", Json.str "s")],
               done := true } := by
  have h := (parseAgentResponse_extraction "Here is the plan: " " all set."
      "\x7b\"thought\":\"t\",\"action\":\x7b\"type\":\"done\",\"summary\":\"s\"\x7d,\"done\":true\x7d"
      (Json.obj [("thought", Json.str "t"),
        ("action", Json.obj [("type", Json.str "done"), ("summary", Json.str "s")]),
        ("done", Json.bool true)])
      (by rfl) (by rfl) (by rfl) (by rfl) (by decide) (by rfl)).1
  exact h

end SideScope
